import Mathlib

/-!
Verification of the rotation and quota-lifecycle engine of the
agent-manager repository (src/app/models.py and src/app/utils/rotation.py),
as a shallow embedding in Lean 4.

Modelling conventions:
- Python `datetime` values are modelled by `PyDateTime`: an integer instant
  (seconds) plus an `aware` flag recording whether the value carries a
  timezone (`tzinfo`).  All timezone-aware datetimes produced by this code
  base are UTC, so a single instant field suffices.  Python raises
  `TypeError` on ordered comparison or subtraction of a naive and an aware
  datetime; this is modelled by `pyGe`/`pySub` returning `Except`.
- `timedelta` values are modelled as integer seconds; fractional hours are
  rationals.  The display-only `round(x, 2)` calls in `get_summary` are not
  modelled (they only affect JSON formatting, none of the claims).
- Database rows are modelled relationally: a `DB` record with one list per
  table.  Primary keys (`Account.id`, `Session.id`) are `Nat`; uuid
  generation is modelled by the `next_session_id` counter.  The `Quota`
  table's key is the pair `(account_id, provider)` (unique constraint
  `unique_account_provider`); its uuid primary key is never read by the
  modelled logic and is omitted.
- The application is single-user (`SINGLE_USER_ID`), so the `user_id`
  column and the `Account.user_id == self.user_id` filters are dropped:
  every account in the `DB` belongs to the one user.  SQLAlchemy joins
  (`Session.query.join(Account)`, `Quota.query.join(Account)`) become
  existence checks of the owning account row.
- Columns `veces_usada` and `tiempo_total_uso` have database defaults
  (0 / zero interval) and are modelled non-nullable; the defensive
  `is None` re-initialisations in `Session.end_session` are therefore
  identities and the truthiness guard `if self.duracion:` before
  `tiempo_total_uso += self.duracion` only skips adding zero.
- In-place mutation of a row object followed by `db.session.commit()` is
  modelled as replacing the row with the matching key in its table list.
  Operations return the committed database state together with an
  `Except` describing the Python return value or the exception raised.
-/

/-- The two provider tokens of models.py's check constraints. -/
inductive Provider where
  | anthropic
  | gemini
deriving DecidableEq, Repr

/-- The `estado` column of the quotas table: 'disponible' or 'agotada'. -/
inductive QuotaEstado where
  | disponible
  | agotada
deriving DecidableEq, Repr

/-- The `motivo_fin` column of the sessions table: 'manual' or 'cuota_agotada'. -/
inductive Motivo where
  | manual
  | cuota_agotada
deriving DecidableEq, Repr

/-- Exceptions the modelled code can raise.  The three `ValueError`s of
`RotationManager.start_session` have distinct messages and are modelled as
distinct constructors; `typeError` models Python's `TypeError` on
naive/aware datetime comparison or subtraction. -/
inductive PyErr where
  | typeError
  | conflictActiveSession
  | accountNotFound
  | quotaExhausted (p : Provider)
deriving DecidableEq, Repr

/-- A Python `datetime`: instant in seconds plus awareness flag.
Aware values are always UTC in this code base. -/
structure PyDateTime where
  t : Int
  aware : Bool
deriving DecidableEq, Repr

/-- Python `a >= b` on datetimes: raises `TypeError` when exactly one side
is timezone-aware. -/
def pyGe (a b : PyDateTime) : Except PyErr Bool :=
  if a.aware = b.aware then .ok (decide (b.t ≤ a.t)) else .error .typeError

/-- Python `a - b` on datetimes (a `timedelta` in seconds): raises
`TypeError` when exactly one side is timezone-aware. -/
def pySub (a b : PyDateTime) : Except PyErr Int :=
  if a.aware = b.aware then .ok (a.t - b.t) else .error .typeError

/-- A row of the quotas table (models.py `Quota`). -/
structure Quota where
  account_id : Nat
  provider : Provider
  estado : QuotaEstado
  proximo_reset : Option PyDateTime
  agotada_en : Option PyDateTime
deriving DecidableEq, Repr

/-- `Quota.reset`: force the quota back to 'disponible' and clear both
timestamps. -/
def Quota.reset (q : Quota) : Quota :=
  { q with estado := .disponible, agotada_en := none, proximo_reset := none }

/-- `Quota.is_available`, with `nowT` the instant of
`datetime.now(timezone.utc)` (an aware value).  Returns the boolean
result together with the (possibly lazily reset) quota row.  The source's
`if reset_time.tzinfo: now = now.replace(tzinfo=timezone.utc)` is a no-op
because `now` is already aware UTC, so the comparison `now >= reset_time`
raises `TypeError` whenever `proximo_reset` is stored naive. -/
def Quota.is_available (q : Quota) (nowT : Int) : Except PyErr (Bool × Quota) :=
  if q.estado = .disponible then .ok (true, q)
  else
    match q.proximo_reset with
    | some reset_time =>
      match pyGe ⟨nowT, true⟩ reset_time with
      | .error e => .error e
      | .ok ge => if ge then .ok (true, q.reset) else .ok (false, q)
    | none => .ok (false, q)

/-- `Quota.mark_exhausted`: set 'agotada', record `agotada_en = now`
(aware UTC) and store the caller-supplied `reset_time` unvalidated. -/
def Quota.mark_exhausted (q : Quota) (reset_time : PyDateTime) (nowT : Int) : Quota :=
  { q with estado := .agotada, agotada_en := some ⟨nowT, true⟩,
           proximo_reset := some reset_time }

/-- A row of the accounts table (models.py `Account`).  The quotas and
sessions relationships are recovered from the `DB` tables by
`account_id`. -/
structure Account where
  id : Nat
  activa : Bool
  veces_usada : Nat
  tiempo_total_uso : Int
  created_at : PyDateTime
deriving DecidableEq, Repr

/-- A row of the sessions table (models.py `Session`). -/
structure Session where
  id : Nat
  account_id : Nat
  provider : Provider
  inicio : PyDateTime
  fin : Option PyDateTime
  duracion : Option Int
  motivo_fin : Option Motivo
deriving DecidableEq, Repr

/-- The database state: one list per table, plus a fresh-id counter
modelling uuid generation for new sessions. -/
structure DB where
  accounts : List Account
  quotas : List Quota
  sessions : List Session
  next_session_id : Nat
deriving DecidableEq, Repr

/-- `Account.get_anthropic_quota` / `Account.get_gemini_quota`: first quota
row of this account for the given provider (unique by constraint). -/
def getQuotaFor (db : DB) (aid : Nat) (p : Provider) : Option Quota :=
  db.quotas.find? (fun q => q.account_id == aid && q.provider == p)

/-- Commit an updated quota row in place (the row keeps its
`(account_id, provider)` key). -/
def DB.setQuota (db : DB) (q1 : Quota) : DB :=
  { db with quotas := db.quotas.map fun q =>
      if q.account_id == q1.account_id && q.provider == q1.provider then q1 else q }

/-- Commit an updated session row in place (the row keeps its id). -/
def DB.setSession (db : DB) (s1 : Session) : DB :=
  { db with sessions := db.sessions.map (fun s => if s.id == s1.id then s1 else s) }

/-- `Account.is_anthropic_available` / `Account.is_gemini_available` for
account `aid`: treat a missing quota row as available (fail-open), else
delegate to `Quota.is_available`, committing any lazy reset. -/
def accountProviderAvailable (db : DB) (aid : Nat) (p : Provider) (nowT : Int) :
    DB × Except PyErr Bool :=
  match getQuotaFor db aid p with
  | none => (db, .ok true)
  | some q =>
    match q.is_available nowT with
    | .error e => (db, .error e)
    | .ok (b, q1) => (db.setQuota q1, .ok b)

/-- The classification strings of `Account.get_classification`. -/
inductive Classification where
  | disponible
  | limite_parcial
  | limite_total
deriving DecidableEq, Repr

/-- `Account.get_classification`: evaluate both availability predicates
(in source order: anthropic first), then map to the three-way
classification. -/
def get_classification (db : DB) (aid : Nat) (nowT : Int) :
    DB × Except PyErr Classification :=
  match accountProviderAvailable db aid .anthropic nowT with
  | (db1, .error e) => (db1, .error e)
  | (db1, .ok aAvail) =>
    match accountProviderAvailable db1 aid .gemini nowT with
    | (db2, .error e) => (db2, .error e)
    | (db2, .ok gAvail) =>
      (db2, .ok (if aAvail && gAvail then .disponible
                 else if aAvail || gAvail then .limite_parcial
                 else .limite_total))

/-- One step of the `get_available_accounts` loop: evaluate the membership
condition for one account (possibly committing lazy quota resets).
`provider = none` models the Python `provider is None` branch, whose
`or` short-circuits: the gemini check only runs when the anthropic one
returned false. -/
def gaaCond (db : DB) (a : Account) (provider : Option Provider) (nowT : Int) :
    DB × Except PyErr Bool :=
  match provider with
  | some p => accountProviderAvailable db a.id p nowT
  | none =>
    match accountProviderAvailable db a.id .anthropic nowT with
    | (db1, .error e) => (db1, .error e)
    | (db1, .ok true) => (db1, .ok true)
    | (db1, .ok false) => accountProviderAvailable db1 a.id .gemini nowT

/-- The `for account in accounts` loop of
`RotationManager.get_available_accounts`, appending each account whose
condition holds. -/
def gaaLoop (db : DB) (accts : List Account) (provider : Option Provider) (nowT : Int) :
    DB × Except PyErr (List Account) :=
  match accts with
  | [] => (db, .ok [])
  | a :: rest =>
    match gaaCond db a provider nowT with
    | (db1, .error e) => (db1, .error e)
    | (db1, .ok b) =>
      match gaaLoop db1 rest provider nowT with
      | (db2, .error e) => (db2, .error e)
      | (db2, .ok l) => (db2, .ok (if b then a :: l else l))

/-- `RotationManager.get_available_accounts`: all of the user's accounts
whose relevant quota (or either quota, if no provider is given) is
available. -/
def get_available_accounts (db : DB) (provider : Option Provider) (nowT : Int) :
    DB × Except PyErr (List Account) :=
  gaaLoop db db.accounts provider nowT

/-- Stable insertion step for sorting by `veces_usada` (Python's
`list.sort(key=lambda a: a.veces_usada)` is stable). -/
def insertByVeces (x : Account) : List Account → List Account
  | [] => [x]
  | y :: ys => if x.veces_usada ≤ y.veces_usada then x :: y :: ys else y :: insertByVeces x ys

/-- Stable sort by `veces_usada`, modelling the in-place `sort` calls in
`get_best_account`. -/
def sortByVeces : List Account → List Account
  | [] => []
  | x :: xs => insertByVeces x (sortByVeces xs)

/-- The gemini fallback branch of `RotationManager.get_best_account`. -/
def bestGemini (db : DB) (nowT : Int) :
    DB × Except PyErr (Option (Account × Provider)) :=
  match get_available_accounts db (some .gemini) nowT with
  | (db1, .error e) => (db1, .error e)
  | (db1, .ok l) =>
    match (sortByVeces l).head? with
    | some a => (db1, .ok (some (a, .gemini)))
    | none => (db1, .ok none)

/-- `RotationManager.get_best_account`: prefer an anthropic-available
account sorted by least `veces_usada`; fall back to gemini; else none. -/
def get_best_account (db : DB) (prefer_anthropic : Bool) (nowT : Int) :
    DB × Except PyErr (Option (Account × Provider)) :=
  if prefer_anthropic then
    match get_available_accounts db (some .anthropic) nowT with
    | (db1, .error e) => (db1, .error e)
    | (db1, .ok l) =>
      match (sortByVeces l).head? with
      | some a => (db1, .ok (some (a, .anthropic)))
      | none => bestGemini db1 nowT
  else bestGemini db nowT

/-- `RotationManager.get_active_session`: first session row with
`fin IS NULL` whose owning account row exists (the query joins the
accounts table). -/
def get_active_session (db : DB) : Option Session :=
  db.sessions.find? fun s =>
    s.fin.isNone && db.accounts.any (fun a => a.id == s.account_id)

/-- `RotationManager.start_session`: check for an active session, then for
the account, then re-check the requested provider's quota (committing any
lazy reset), and only then create the open session row and mark the
account active. -/
def start_session (db : DB) (account_id : Nat) (provider : Provider) (nowT : Int) :
    DB × Except PyErr Session :=
  match get_active_session db with
  | some _ => (db, .error .conflictActiveSession)
  | none =>
    match db.accounts.find? (fun a => a.id == account_id) with
    | none => (db, .error .accountNotFound)
    | some _ =>
      match accountProviderAvailable db account_id provider nowT with
      | (db1, .error e) => (db1, .error e)
      | (db1, .ok false) => (db1, .error (.quotaExhausted provider))
      | (db1, .ok true) =>
        let s : Session :=
          ⟨db1.next_session_id, account_id, provider, ⟨nowT, true⟩, none, none, none⟩
        ({ db1 with
             sessions := db1.sessions ++ [s],
             accounts := db1.accounts.map fun a =>
               if a.id == account_id then { a with activa := true } else a,
             next_session_id := db1.next_session_id + 1 },
         .ok s)

/-- The closed form of a session after `Session.end_session`: `fin` is the
aware now, `duracion = fin - inicio`, `motivo_fin` is the given reason. -/
def closedOf (s : Session) (motivo : Motivo) (nowT : Int) : Session :=
  { s with fin := some ⟨nowT, true⟩, duracion := some (nowT - s.inicio.t),
           motivo_fin := some motivo }

/-- `Session.end_session` (the model method): set `fin` to now (both
branches of the source's tz guard assign the aware
`datetime.now(timezone.utc)`), compute `duracion = fin - inicio` (raising
`TypeError` when `inicio` is naive), record the reason, and roll the
aggregates into the owning account when — and only when — that account row
still exists. -/
def sessionEndSession (db : DB) (s : Session) (motivo : Motivo) (nowT : Int) :
    DB × Except PyErr Session :=
  match pySub ⟨nowT, true⟩ s.inicio with
  | .error e => (db, .error e)
  | .ok d =>
    let s1 := { s with fin := some ⟨nowT, true⟩, duracion := some d,
                       motivo_fin := some motivo }
    let db1 := db.setSession s1
    match db1.accounts.find? (fun a => a.id == s.account_id) with
    | none => (db1, .ok s1)
    | some _ =>
      ({ db1 with accounts := db1.accounts.map fun a =>
           if a.id == s.account_id then
             { a with activa := false, veces_usada := a.veces_usada + 1,
                      tiempo_total_uso := if d == 0 then a.tiempo_total_uso
                                          else a.tiempo_total_uso + d }
           else a },
       .ok s1)

/-- `RotationManager.end_session`: no-op returning none when no active
session exists; otherwise close it via `Session.end_session` and — only
when the reason is 'cuota_agotada' and a reset time was supplied — mark
that account+provider quota exhausted, creating the quota row first if it
is missing. -/
def end_session (db : DB) (motivo : Motivo) (proximo_reset : Option PyDateTime)
    (nowT : Int) : DB × Except PyErr (Option Session) :=
  match get_active_session db with
  | none => (db, .ok none)
  | some s =>
    match sessionEndSession db s motivo nowT with
    | (db1, .error e) => (db1, .error e)
    | (db1, .ok s1) =>
      match motivo, proximo_reset with
      | .cuota_agotada, some r =>
        match getQuotaFor db1 s.account_id s.provider with
        | some q => (db1.setQuota (q.mark_exhausted r nowT), .ok (some s1))
        | none =>
          let q0 : Quota := ⟨s.account_id, s.provider, .disponible, none, none⟩
          let db2 := { db1 with quotas := db1.quotas ++ [q0] }
          (db2.setQuota (q0.mark_exhausted r nowT), .ok (some s1))
      | _, _ => (db1, .ok (some s1))

/-- `RotationManager.get_next_anthropic_reset`: the earliest
`proximo_reset` among the user's exhausted anthropic quotas that have one
(the query joins the accounts table); none when there is no such quota. -/
def get_next_anthropic_reset (db : DB) : Option PyDateTime :=
  let cands := db.quotas.filter fun q =>
    db.accounts.any (fun a => a.id == q.account_id) &&
    q.provider == .anthropic && q.estado == .agotada && q.proximo_reset.isSome
  cands.foldl
    (fun best q =>
      match best, q.proximo_reset with
      | none, r => r
      | some b, some r => if r.t < b.t then some r else some b
      | some b, none => some b)
    none

/-- The dict returned by `RotationManager.rotate_to_next`.  The
`next_anthropic_reset` and `new_session` keys are only present in some
branches; `none` in the outer option models an absent key. -/
structure RotationResult where
  ended_session : Option Session
  next_account : Option Account
  next_provider : Option Provider
  rotated : Bool
  needs_user_choice : Bool
  next_anthropic_reset : Option (Option PyDateTime) := none
  new_session : Option Session := none
deriving DecidableEq, Repr

/-- `RotationManager.rotate_to_next`: end the current session (possibly a
no-op), select the best account preferring anthropic, and either report
no candidate, report a gemini-only candidate with `needs_user_choice`
(without starting a session), or auto-start on the anthropic candidate. -/
def rotate_to_next (db : DB) (motivo : Motivo) (proximo_reset : Option PyDateTime)
    (auto_start : Bool) (nowT : Int) : DB × Except PyErr RotationResult :=
  match end_session db motivo proximo_reset nowT with
  | (db1, .error e) => (db1, .error e)
  | (db1, .ok ended) =>
    match get_best_account db1 true nowT with
    | (db2, .error e) => (db2, .error e)
    | (db2, .ok none) =>
      (db2, .ok { ended_session := ended, next_account := none,
                  next_provider := none, rotated := false,
                  needs_user_choice := false })
    | (db2, .ok (some (acct, .gemini))) =>
      (db2, .ok { ended_session := ended, next_account := some acct,
                  next_provider := some .gemini, rotated := false,
                  needs_user_choice := true,
                  next_anthropic_reset := some (get_next_anthropic_reset db2) })
    | (db2, .ok (some (acct, .anthropic))) =>
      if auto_start then
        match start_session db2 acct.id .anthropic nowT with
        | (db3, .error e) => (db3, .error e)
        | (db3, .ok ns) =>
          (db3, .ok { ended_session := ended, next_account := some acct,
                      next_provider := some .anthropic, rotated := true,
                      needs_user_choice := false, new_session := some ns })
      else
        (db2, .ok { ended_session := ended, next_account := some acct,
                    next_provider := some .anthropic, rotated := false,
                    needs_user_choice := false })

/-- The `modelo_mas_usado` value of `RotationManager.get_summary`:
None / 'Anthropic' / 'Gemini' / 'Empate'. -/
inductive MostUsed where
  | ninguno
  | anthropicMost
  | geminiMost
  | empate
deriving DecidableEq, Repr

/-- The running counters of the `get_summary` loop. -/
structure SumAcc where
  disponibles : Nat := 0
  limite_parcial : Nat := 0
  limite_total : Nat := 0
  limite_anthropic : Nat := 0
  limite_gemini : Nat := 0
  horas_anthropic : Rat := 0
  horas_gemini : Rat := 0
  sesiones_anthropic : Nat := 0
  sesiones_gemini : Nat := 0
deriving DecidableEq, Repr

/-- One step of the inner `for session in finished_sessions` loop of
`get_summary`: sessions whose `duracion` is falsy (absent or the zero
timedelta) are skipped entirely. -/
def sessionTallyStep (acc : SumAcc) (s : Session) : SumAcc :=
  match s.duracion with
  | none => acc
  | some d =>
    if d == 0 then acc
    else if s.provider == .anthropic then
      { acc with horas_anthropic := acc.horas_anthropic + (d : Rat) / 3600,
                 sesiones_anthropic := acc.sesiones_anthropic + 1 }
    else
      { acc with horas_gemini := acc.horas_gemini + (d : Rat) / 3600,
                 sesiones_gemini := acc.sesiones_gemini + 1 }

/-- The `finished_sessions` list of one account inside `get_summary`:
this account's session rows with `fin` set, in table order. -/
def finishedSessionsOf (db : DB) (aid : Nat) : List Session :=
  (db.sessions.filter fun s => s.account_id == aid).filter fun s => s.fin.isSome

/-- Bump the classification counters for one account. -/
def classTallyStep (acc : SumAcc) (c : Classification) : SumAcc :=
  match c with
  | .disponible => { acc with disponibles := acc.disponibles + 1 }
  | .limite_parcial => { acc with limite_parcial := acc.limite_parcial + 1 }
  | .limite_total => { acc with limite_total := acc.limite_total + 1 }

/-- The `for account in accounts` loop of `get_summary`: classify the
account (committing lazy quota resets), re-check each provider for the
per-provider exhaustion counters, then tally this account's finished
sessions. -/
def summaryLoop (nowT : Int) (db : DB) (acc : SumAcc) (accts : List Account) :
    DB × Except PyErr SumAcc :=
  match accts with
  | [] => (db, .ok acc)
  | a :: rest =>
    match get_classification db a.id nowT with
    | (db1, .error e) => (db1, .error e)
    | (db1, .ok cls) =>
      match accountProviderAvailable db1 a.id .anthropic nowT with
      | (db2, .error e) => (db2, .error e)
      | (db2, .ok aAvail) =>
        match accountProviderAvailable db2 a.id .gemini nowT with
        | (db3, .error e) => (db3, .error e)
        | (db3, .ok gAvail) =>
          let acc1 := classTallyStep acc cls
          let acc2 := { acc1 with
            limite_anthropic := acc1.limite_anthropic + (if aAvail then 0 else 1),
            limite_gemini := acc1.limite_gemini + (if gAvail then 0 else 1) }
          let acc3 := (finishedSessionsOf db3 a.id).foldl sessionTallyStep acc2
          summaryLoop nowT db3 acc3 rest

/-- The dict returned by `RotationManager.get_summary` (without the
display-only 2-decimal rounding of the hour figures). -/
structure Summary where
  total : Nat
  disponibles : Nat
  limite_parcial : Nat
  limite_total : Nat
  limite_anthropic : Nat
  limite_gemini : Nat
  horas_anthropic : Rat
  horas_gemini : Rat
  sesiones_anthropic : Nat
  sesiones_gemini : Nat
  modelo_mas_usado : MostUsed
  horas_totales : Rat
deriving DecidableEq, Repr

/-- `RotationManager.get_summary`: run the account loop, then derive the
most-used provider by strict majority of the tallied session counts, with
'Empate' on a nonzero tie and None when both counts are zero. -/
def get_summary (db : DB) (nowT : Int) : DB × Except PyErr Summary :=
  match summaryLoop nowT db {} db.accounts with
  | (db1, .error e) => (db1, .error e)
  | (db1, .ok acc) =>
    (db1, .ok
      { total := db.accounts.length,
        disponibles := acc.disponibles,
        limite_parcial := acc.limite_parcial,
        limite_total := acc.limite_total,
        limite_anthropic := acc.limite_anthropic,
        limite_gemini := acc.limite_gemini,
        horas_anthropic := acc.horas_anthropic,
        horas_gemini := acc.horas_gemini,
        sesiones_anthropic := acc.sesiones_anthropic,
        sesiones_gemini := acc.sesiones_gemini,
        modelo_mas_usado :=
          if acc.sesiones_gemini < acc.sesiones_anthropic then .anthropicMost
          else if acc.sesiones_anthropic < acc.sesiones_gemini then .geminiMost
          else if 0 < acc.sesiones_anthropic then .empate
          else .ninguno,
        horas_totales := acc.horas_anthropic + acc.horas_gemini })

/-- The rotation-engine operations a caller can invoke, with the wall
clock instant at which each call happens. -/
inductive Cmd where
  | start (account_id : Nat) (provider : Provider) (nowT : Int)
  | finish (motivo : Motivo) (proximo_reset : Option PyDateTime) (nowT : Int)
  | rotate (motivo : Motivo) (proximo_reset : Option PyDateTime)
      (auto_start : Bool) (nowT : Int)

/-- The committed database state after one engine call (whether the call
returned normally or raised). -/
def step (db : DB) : Cmd → DB
  | .start aid p n => (start_session db aid p n).1
  | .finish m pr n => (end_session db m pr n).1
  | .rotate m pr auto n => (rotate_to_next db m pr auto n).1

/-- Run a sequence of engine calls. -/
def run (db : DB) : List Cmd → DB
  | [] => db
  | c :: cs => run (step db c) cs

/-- Number of open session rows (`fin IS NULL`). -/
def openCount (db : DB) : Nat :=
  db.sessions.countP fun s => s.fin.isNone

/-- Number of account rows with `activa = true`. -/
def activeCount (db : DB) : Nat :=
  db.accounts.countP fun a => a.activa

/-- The global well-formedness invariant of the pool: at most one open
session; every open session has an existing owner and an aware start
timestamp; an account is active exactly when it owns an open session;
account ids, session ids and quota keys are unique; and session ids stay
below the fresh-id counter. -/
def PoolInv (db : DB) : Prop :=
  openCount db ≤ 1 ∧
  (∀ s ∈ db.sessions, s.fin = none →
     (∃ a ∈ db.accounts, a.id = s.account_id) ∧ s.inicio.aware = true) ∧
  (∀ a ∈ db.accounts,
     a.activa = true ↔ ∃ s ∈ db.sessions, s.fin = none ∧ s.account_id = a.id) ∧
  (db.accounts.map Account.id).Nodup ∧
  (db.sessions.map Session.id).Nodup ∧
  (∀ s ∈ db.sessions, s.id < db.next_session_id) ∧
  (db.quotas.map fun q => (q.account_id, q.provider)).Nodup

instance (db : DB) : Decidable (PoolInv db) := by
  unfold PoolInv
  infer_instance

/-- A list with two distinct members has at least two entries. -/
theorem two_le_length_of_mem_ne {α : Type} {a b : α} {l : List α}
    (ha : a ∈ l) (hb : b ∈ l) (hne : a ≠ b) : 2 ≤ l.length := by
  match l with
  | [] => cases ha
  | [x] =>
    simp only [List.mem_singleton] at ha hb
    exact absurd (ha.trans hb.symm) hne
  | x :: y :: rest => simp [List.length]

/-- A predicate holding on at most one list entry pins down any member
satisfying it. -/
theorem countP_le_one_unique {α : Type} {p : α → Bool} {l : List α}
    (hle : l.countP p ≤ 1) {a b : α} (ha : a ∈ l) (hpa : p a = true)
    (hb : b ∈ l) (hpb : p b = true) : b = a := by
  by_contra hne
  have h2 : 2 ≤ (l.filter p).length :=
    two_le_length_of_mem_ne (List.mem_filter.mpr ⟨hb, hpb⟩)
      (List.mem_filter.mpr ⟨ha, hpa⟩) hne
  rw [← List.countP_eq_length_filter] at h2
  omega

/-- A list whose image under `f` has no duplicates has at most one entry
with any given `f`-value. -/
theorem countP_eq_le_one_of_nodup_map {α β : Type} [DecidableEq β] (f : α → β)
    {l : List α} (h : (l.map f).Nodup) (c : β) :
    l.countP (fun x => f x == c) ≤ 1 := by
  have h1 : l.countP (fun x => f x == c) = (l.map f).countP (fun y => y == c) := by
    rw [List.countP_map]; rfl
  rw [h1, ← List.count_eq_countP]
  exact List.nodup_iff_count_le_one.mp h c

/-- Pointwise-equal boolean predicates count the same. -/
theorem countP_congr_mem {α : Type} {p q : α → Bool} :
    ∀ {l : List α}, (∀ x ∈ l, p x = q x) → l.countP p = l.countP q := by
  intro l
  induction l with
  | nil => intro _; rfl
  | cons x xs ih =>
    intro h
    rw [List.countP_cons, List.countP_cons, h x (List.mem_cons_self x xs),
        ih (fun y hy => h y (List.mem_cons_of_mem x hy))]

/-- Counting a disjunction of disjoint predicates splits into a sum. -/
theorem countP_or_disjoint {α : Type} {p q : α → Bool} :
    ∀ {l : List α}, (∀ x ∈ l, ¬(p x = true ∧ q x = true)) →
      l.countP (fun x => p x || q x) = l.countP p + l.countP q := by
  intro l
  induction l with
  | nil => intro _; rfl
  | cons x xs ih =>
    intro h
    have hx := h x (List.mem_cons_self x xs)
    have hxs := ih (fun y hy => h y (List.mem_cons_of_mem x hy))
    rw [List.countP_cons, List.countP_cons, List.countP_cons, hxs]
    cases hp : p x <;> cases hq : q x <;> simp_all <;> omega

/-- Two databases with the same accounts, sessions, fresh-id counter and
quota keys; everything except the mutable quota payloads agrees.  All the
availability reads mutate the database only within this relation. -/
def SameSkeleton (db db1 : DB) : Prop :=
  db1.accounts = db.accounts ∧ db1.sessions = db.sessions ∧
  db1.next_session_id = db.next_session_id ∧
  db1.quotas.map (fun q => (q.account_id, q.provider)) =
    db.quotas.map (fun q => (q.account_id, q.provider))

theorem sameSkeleton_refl (db : DB) : SameSkeleton db db :=
  ⟨rfl, rfl, rfl, rfl⟩

theorem sameSkeleton_trans {db db1 db2 : DB} (h1 : SameSkeleton db db1)
    (h2 : SameSkeleton db1 db2) : SameSkeleton db db2 :=
  ⟨h2.1.trans h1.1, h2.2.1.trans h1.2.1, h2.2.2.1.trans h1.2.2.1,
   h2.2.2.2.trans h1.2.2.2⟩

/-- Replacing a quota row in place leaves the key column unchanged. -/
theorem setQuota_keys (db : DB) (q1 : Quota) :
    (db.setQuota q1).quotas.map (fun q => (q.account_id, q.provider)) =
      db.quotas.map (fun q => (q.account_id, q.provider)) := by
  show (db.quotas.map _).map _ = _
  rw [List.map_map]
  apply List.map_congr_left
  intro q _
  by_cases h : (q.account_id == q1.account_id && q.provider == q1.provider) = true
  · simp only [Function.comp_apply, h, if_pos]
    have h1 := (Bool.and_eq_true _ _).mp h
    have ha : q.account_id = q1.account_id := by
      have := h1.1; simpa using this
    have hp : q.provider = q1.provider := by
      have := h1.2; simpa using this
    rw [ha, hp]
  · simp only [Function.comp_apply, h, if_neg]
    simp

theorem setQuota_skeleton (db : DB) (q1 : Quota) :
    SameSkeleton db (db.setQuota q1) :=
  ⟨rfl, rfl, rfl, setQuota_keys db q1⟩

/-- An availability read changes the database only within the skeleton
relation. -/
theorem apa_skeleton (db : DB) (aid : Nat) (p : Provider) (nowT : Int) :
    SameSkeleton db (accountProviderAvailable db aid p nowT).1 := by
  unfold accountProviderAvailable
  cases h : getQuotaFor db aid p with
  | none => exact sameSkeleton_refl db
  | some q =>
    simp only []
    cases h2 : q.is_available nowT with
    | error e => exact sameSkeleton_refl db
    | ok bq =>
      cases bq with
      | mk b q1 =>
        simp only []
        exact setQuota_skeleton db q1

/-- The membership condition of `get_available_accounts` changes the
database only within the skeleton relation. -/
theorem gaaCond_skeleton (db : DB) (a : Account) (provider : Option Provider)
    (nowT : Int) : SameSkeleton db (gaaCond db a provider nowT).1 := by
  unfold gaaCond
  cases provider with
  | some p => exact apa_skeleton db a.id p nowT
  | none =>
    have h1 := apa_skeleton db a.id .anthropic nowT
    cases h : accountProviderAvailable db a.id .anthropic nowT with
    | mk db1 r =>
      rw [h] at h1
      cases r with
      | error e => exact h1
      | ok b =>
        cases b with
        | true => exact h1
        | false =>
          have h2 := apa_skeleton db1 a.id .gemini nowT
          exact sameSkeleton_trans h1 h2

theorem gaaLoop_skeleton (provider : Option Provider) (nowT : Int) :
    ∀ (accts : List Account) (db : DB),
      SameSkeleton db (gaaLoop db accts provider nowT).1 := by
  intro accts
  induction accts with
  | nil => intro db; exact sameSkeleton_refl db
  | cons a rest ih =>
    intro db
    unfold gaaLoop
    have h1 := gaaCond_skeleton db a provider nowT
    cases h : gaaCond db a provider nowT with
    | mk db1 r =>
      rw [h] at h1
      cases r with
      | error e => exact h1
      | ok b =>
        have h3 := ih db1
        simp only []
        cases h2 : gaaLoop db1 rest provider nowT with
        | mk db2 r2 =>
          rw [h2] at h3
          cases r2 with
          | error e => simp only []; exact sameSkeleton_trans h1 h3
          | ok l => simp only []; exact sameSkeleton_trans h1 h3

theorem get_available_accounts_skeleton (db : DB) (provider : Option Provider)
    (nowT : Int) : SameSkeleton db (get_available_accounts db provider nowT).1 :=
  gaaLoop_skeleton provider nowT db.accounts db

theorem bestGemini_skeleton (db : DB) (nowT : Int) :
    SameSkeleton db (bestGemini db nowT).1 := by
  unfold bestGemini
  have h1 := get_available_accounts_skeleton db (some .gemini) nowT
  cases h : get_available_accounts db (some .gemini) nowT with
  | mk db1 r =>
    rw [h] at h1
    cases r with
    | error e => exact h1
    | ok l =>
      simp only []
      cases (sortByVeces l).head? <;> simp only [] <;> exact h1

theorem get_best_account_skeleton (db : DB) (pa : Bool) (nowT : Int) :
    SameSkeleton db (get_best_account db pa nowT).1 := by
  unfold get_best_account
  cases pa with
  | false => exact bestGemini_skeleton db nowT
  | true =>
    simp only [if_pos]
    have h1 := get_available_accounts_skeleton db (some .anthropic) nowT
    cases h : get_available_accounts db (some .anthropic) nowT with
    | mk db1 r =>
      rw [h] at h1
      cases r with
      | error e => exact h1
      | ok l =>
        simp only []
        cases (sortByVeces l).head? with
        | some a => simp only []; exact h1
        | none =>
          simp only []
          exact sameSkeleton_trans h1 (bestGemini_skeleton db1 nowT)

/-- The pool invariant only reads the skeleton, so it transports along
`SameSkeleton`. -/
theorem poolInv_skeleton {db db1 : DB} (h : SameSkeleton db db1) :
    PoolInv db ↔ PoolInv db1 := by
  obtain ⟨ha, hs, hn, hq⟩ := h
  unfold PoolInv openCount
  rw [ha, hs, hn, hq]

/-- `get_active_session` only reads the skeleton. -/
theorem get_active_session_skeleton {db db1 : DB} (h : SameSkeleton db db1) :
    get_active_session db1 = get_active_session db := by
  unfold get_active_session
  rw [h.1, h.2.1]

/-- The session table after closing session `s` in place. -/
def closeSessions (db : DB) (s : Session) (m : Motivo) (nowT : Int) : List Session :=
  db.sessions.map fun t => if t.id == s.id then closedOf s m nowT else t

/-- The account-aggregate rollup of `Session.end_session` applied to one
row: deactivate, bump the usage counter, add the session duration. -/
def rollupAccount (aid : Nat) (d : Int) (a : Account) : Account :=
  if a.id == aid then
    { a with activa := false, veces_usada := a.veces_usada + 1,
             tiempo_total_uso := if d == 0 then a.tiempo_total_uso
                                 else a.tiempo_total_uso + d }
  else a

/-- A found active session is an open member of the session table whose
owner row exists. -/
theorem active_session_found {db : DB} {s : Session}
    (h : get_active_session db = some s) :
    s ∈ db.sessions ∧ s.fin = none ∧
      (db.accounts.any fun a => a.id == s.account_id) = true := by
  unfold get_active_session at h
  have hmem := List.mem_of_find?_eq_some h
  have hp := List.find?_some h
  rw [Bool.and_eq_true] at hp
  exact ⟨hmem, Option.isNone_iff_eq_none.mp hp.1, hp.2⟩

/-- With no open-session row at all, `get_active_session` finds nothing. -/
theorem no_active_of_openCount_zero {db : DB} (h : openCount db = 0) :
    get_active_session db = none := by
  unfold get_active_session
  rw [List.find?_eq_none]
  intro s hs hp
  rw [Bool.and_eq_true] at hp
  have := List.countP_eq_zero.mp h s hs
  exact this hp.1

/-- Under the invariant, an empty `get_active_session` means no open
session row exists at all (open rows always have owners). -/
theorem openCount_zero_of_no_active {db : DB} (hInv : PoolInv db)
    (h : get_active_session db = none) : openCount db = 0 := by
  obtain ⟨-, hOwn, -⟩ := hInv
  unfold get_active_session at h
  rw [List.find?_eq_none] at h
  rw [openCount, List.countP_eq_zero]
  intro s hs hp
  apply h s hs
  rw [Bool.and_eq_true]
  refine ⟨hp, ?_⟩
  rw [List.any_eq_true]
  obtain ⟨⟨a, ha, haid⟩, -⟩ := hOwn s hs (Option.isNone_iff_eq_none.mp hp)
  exact ⟨a, ha, by simp [haid]⟩

/-- With an active session present, `start_session` fails with the
session-conflict error and commits nothing. -/
theorem start_session_conflict {db : DB} {s : Session} (aid : Nat) (p : Provider)
    (nowT : Int) (h : get_active_session db = some s) :
    start_session db aid p nowT = (db, .error .conflictActiveSession) := by
  unfold start_session
  rw [h]

/-- With no active session and no matching account row, `start_session`
fails with the account-not-found error and commits nothing. -/
theorem start_session_notFound {db : DB} {aid : Nat} (p : Provider) (nowT : Int)
    (h : get_active_session db = none)
    (h2 : db.accounts.find? (fun a => a.id == aid) = none) :
    start_session db aid p nowT = (db, .error .accountNotFound) := by
  unfold start_session
  rw [h, h2]

/-- With the first two checks passing but the provider quota unavailable
at call time, `start_session` fails with the quota-exhausted error (lazy
quota resets from the re-check stay committed). -/
theorem start_session_quotaEx {db db1 : DB} {aid : Nat} {p : Provider} {nowT : Int}
    {a : Account} (h : get_active_session db = none)
    (h2 : db.accounts.find? (fun x => x.id == aid) = some a)
    (h3 : accountProviderAvailable db aid p nowT = (db1, .ok false)) :
    start_session db aid p nowT = (db1, .error (.quotaExhausted p)) := by
  unfold start_session
  rw [h, h2, h3]

/-- With all three checks passing, `start_session` appends a fresh open
session row and marks the account row active. -/
theorem start_session_ok {db db1 : DB} {aid : Nat} {p : Provider} {nowT : Int}
    {a : Account} (h : get_active_session db = none)
    (h2 : db.accounts.find? (fun x => x.id == aid) = some a)
    (h3 : accountProviderAvailable db aid p nowT = (db1, .ok true)) :
    start_session db aid p nowT =
      ({ db1 with
           sessions := db1.sessions ++
             [⟨db1.next_session_id, aid, p, ⟨nowT, true⟩, none, none, none⟩],
           accounts := db1.accounts.map fun x =>
             if x.id == aid then { x with activa := true } else x,
           next_session_id := db1.next_session_id + 1 },
       .ok ⟨db1.next_session_id, aid, p, ⟨nowT, true⟩, none, none, none⟩) := by
  unfold start_session
  rw [h, h2, h3]

/-- If the quota availability check succeeds, the modelled exception of
an availability error cannot have occurred; the committed database also
keeps the skeleton.  Convenience splitter for `start_session` proofs. -/
theorem apa_cases (db : DB) (aid : Nat) (p : Provider) (nowT : Int) :
    (∃ e, accountProviderAvailable db aid p nowT =
        ((accountProviderAvailable db aid p nowT).1, .error e)) ∨
    (∃ b, accountProviderAvailable db aid p nowT =
        ((accountProviderAvailable db aid p nowT).1, .ok b)) := by
  cases h : (accountProviderAvailable db aid p nowT).2 with
  | error e =>
    left
    exact ⟨e, by rw [← h]⟩
  | ok b =>
    right
    exact ⟨b, by rw [← h]⟩

/-- Committing a fresh open session for an existing account from a state
with no open session preserves the pool invariant. -/
theorem poolInv_start_commit {db : DB} {aid : Nat} (p : Provider) (nowT : Int)
    (hInv : PoolInv db) (hA : get_active_session db = none)
    (hacct : ∃ a ∈ db.accounts, a.id = aid) :
    PoolInv { db with
      sessions := db.sessions ++
        [⟨db.next_session_id, aid, p, ⟨nowT, true⟩, none, none, none⟩],
      accounts := db.accounts.map fun x =>
        if x.id == aid then { x with activa := true } else x,
      next_session_id := db.next_session_id + 1 } := by
  have hzero : openCount db = 0 := openCount_zero_of_no_active hInv hA
  obtain ⟨-, hOwn, hSync, hANd, hSNd, hFresh, hQNd⟩ := hInv
  have hclosed : ∀ s ∈ db.sessions, s.fin ≠ none := by
    intro s hs hfin
    have := List.countP_eq_zero.mp hzero s hs
    exact this (Option.isNone_iff_eq_none.mpr hfin)
  have hInact : ∀ a ∈ db.accounts, a.activa = false := by
    intro a ha
    cases hact : a.activa with
    | false => rfl
    | true =>
      obtain ⟨s, hs, hfin, -⟩ := (hSync a ha).mp hact
      exact absurd hfin (hclosed s hs)
  have hid_map : (db.accounts.map fun x =>
      if x.id == aid then { x with activa := true } else x).map Account.id =
      db.accounts.map Account.id := by
    rw [List.map_map]
    apply List.map_congr_left
    intro a _
    by_cases h : (a.id == aid) = true <;> simp [h, Function.comp]
  refine ⟨?_, ?_, ?_, ?_, ?_, ?_, ?_⟩
  · show openCount _ ≤ 1
    unfold openCount at hzero ⊢
    simp only [List.countP_append, hzero, List.countP_cons, List.countP_nil]
    simp
  · intro s hs hfin
    rcases List.mem_append.mp hs with hs | hs
    · exact absurd hfin (hclosed s hs)
    · rw [List.mem_singleton] at hs
      subst hs
      refine ⟨?_, rfl⟩
      obtain ⟨a, ha, haid⟩ := hacct
      refine ⟨{ a with activa := true }, ?_, haid⟩
      have : (if a.id == aid then { a with activa := true } else a) =
          { a with activa := true } := by
        simp [haid]
      exact this ▸ List.mem_map_of_mem _ ha
  · intro a1 ha1
    simp only [] at ha1
    obtain ⟨a, ha, rfl⟩ := List.mem_map.mp ha1
    by_cases hid : (a.id == aid) = true
    · rw [if_pos hid]
      constructor
      · intro _
        exact ⟨⟨db.next_session_id, aid, p, ⟨nowT, true⟩, none, none, none⟩,
          List.mem_append.mpr (Or.inr (List.mem_singleton.mpr rfl)), rfl,
          (beq_iff_eq.mp hid).symm⟩
      · intro _; rfl
    · rw [if_neg hid]
      rw [hInact a ha]
      constructor
      · intro h; cases h
      · intro hex
        obtain ⟨s, hs, hfin, hsa⟩ := hex
        rcases List.mem_append.mp hs with hs | hs
        · exact absurd hfin (hclosed s hs)
        · rw [List.mem_singleton] at hs
          subst hs
          simp only [] at hsa
          rw [← hsa] at hid
          simp at hid
  · show List.Nodup _
    rw [hid_map]; exact hANd
  · show List.Nodup _
    rw [List.map_append]
    rw [List.nodup_append]
    refine ⟨hSNd, List.nodup_singleton _, ?_⟩
    intro x hx hx2
    simp only [List.map_cons, List.map_nil, List.mem_singleton] at hx2
    subst hx2
    obtain ⟨s, hs, hsid⟩ := List.mem_map.mp hx
    have h2 : s.id = db.next_session_id := hsid
    have := hFresh s hs
    omega
  · intro s hs
    show s.id < db.next_session_id + 1
    rcases List.mem_append.mp hs with hs | hs
    · have := hFresh s hs; omega
    · rw [List.mem_singleton] at hs; subst hs
      exact Nat.lt_succ_self db.next_session_id
  · exact hQNd

/-- `start_session` preserves the pool invariant on every path. -/
theorem inv_start (db : DB) (aid : Nat) (p : Provider) (nowT : Int)
    (hInv : PoolInv db) : PoolInv (start_session db aid p nowT).1 := by
  cases hA : get_active_session db with
  | some s => rw [start_session_conflict aid p nowT hA]; exact hInv
  | none =>
    cases hF : db.accounts.find? (fun a => a.id == aid) with
    | none => rw [start_session_notFound p nowT hA hF]; exact hInv
    | some a =>
      have hskel := apa_skeleton db aid p nowT
      cases hq : accountProviderAvailable db aid p nowT with
      | mk db1 r =>
        rw [hq] at hskel
        have hInv1 : PoolInv db1 := (poolInv_skeleton hskel).mp hInv
        cases r with
        | error e =>
          have heq : start_session db aid p nowT = (db1, .error e) := by
            unfold start_session; rw [hA, hF, hq]
          rw [heq]; exact hInv1
        | ok b =>
          cases b with
          | false => rw [start_session_quotaEx hA hF hq]; exact hInv1
          | true =>
            rw [start_session_ok hA hF hq]
            have hA1 : get_active_session db1 = none := by
              rw [get_active_session_skeleton hskel]; exact hA
            have hacct : ∃ x ∈ db1.accounts, x.id = aid := by
              rw [hskel.1]
              have hpa := List.find?_some hF
              exact ⟨a, List.mem_of_find?_eq_some hF, beq_iff_eq.mp hpa⟩
            exact poolInv_start_commit p nowT hInv1 hA1 hacct

/-- Closing the unique open session closes every row: afterwards no open
session remains. -/
theorem closeSessions_all_closed {db : DB} {s : Session} (m : Motivo) (nowT : Int)
    (hle : openCount db ≤ 1) (hs : s ∈ db.sessions) (hfin : s.fin = none) :
    ∀ t ∈ closeSessions db s m nowT, t.fin ≠ none := by
  intro t ht
  unfold closeSessions at ht
  obtain ⟨t0, ht0, rfl⟩ := List.mem_map.mp ht
  by_cases hid : (t0.id == s.id) = true
  · rw [if_pos hid]
    simp [closedOf]
  · rw [if_neg hid]
    intro hopen
    have hle2 : db.sessions.countP (fun t => t.fin.isNone) ≤ 1 := hle
    have ht0s : t0 = s := by
      apply countP_le_one_unique hle2 hs
        (Option.isNone_iff_eq_none.mpr hfin) ht0
        (Option.isNone_iff_eq_none.mpr hopen)
    rw [ht0s] at hid
    simp at hid

/-- The state committed by `Session.end_session` when the owning account
row exists: sessions closed in place, aggregates rolled up.  It satisfies
the pool invariant and has no open session left. -/
theorem poolInv_close_commit {db : DB} {s : Session} (m : Motivo) (nowT : Int)
    (hInv : PoolInv db) (hs : s ∈ db.sessions) (hfin : s.fin = none) :
    openCount { db with sessions := closeSessions db s m nowT,
                        accounts := db.accounts.map
                          (rollupAccount s.account_id (nowT - s.inicio.t)) } = 0 ∧
    PoolInv { db with sessions := closeSessions db s m nowT,
                      accounts := db.accounts.map
                        (rollupAccount s.account_id (nowT - s.inicio.t)) } := by
  obtain ⟨hle, hOwn, hSync, hANd, hSNd, hFresh, hQNd⟩ := hInv
  have hle2 : db.sessions.countP (fun t => t.fin.isNone) ≤ 1 := hle
  have hclosed := closeSessions_all_closed m nowT hle hs hfin
  have hzero : openCount { db with sessions := closeSessions db s m nowT,
                                   accounts := db.accounts.map
                                     (rollupAccount s.account_id (nowT - s.inicio.t)) } = 0 := by
    unfold openCount
    rw [List.countP_eq_zero]
    intro t ht hp
    exact hclosed t ht (Option.isNone_iff_eq_none.mp hp)
  refine ⟨hzero, ?_, ?_, ?_, ?_, ?_, ?_, ?_⟩
  · rw [hzero]; omega
  · intro t ht hfin2
    exact absurd hfin2 (hclosed t ht)
  · intro a1 ha1
    simp only [] at ha1
    obtain ⟨a, ha, rfl⟩ := List.mem_map.mp ha1
    unfold rollupAccount
    by_cases hid : (a.id == s.account_id) = true
    · rw [if_pos hid]
      constructor
      · intro h; cases h
      · intro hex
        obtain ⟨t, ht, hfin2, -⟩ := hex
        exact absurd hfin2 (hclosed t ht)
    · rw [if_neg hid]
      have hInact : a.activa = false := by
        cases hact : a.activa with
        | false => rfl
        | true =>
          obtain ⟨t, ht, hfin2, hta⟩ := (hSync a ha).mp hact
          have hts : t = s :=
            countP_le_one_unique hle2 hs
              (Option.isNone_iff_eq_none.mpr hfin) ht
              (Option.isNone_iff_eq_none.mpr hfin2)
          rw [hts] at hta
          rw [← hta] at hid
          simp at hid
      rw [hInact]
      constructor
      · intro h; cases h
      · intro hex
        obtain ⟨t, ht, hfin2, -⟩ := hex
        exact absurd hfin2 (hclosed t ht)
  · show List.Nodup _
    have : (db.accounts.map (rollupAccount s.account_id (nowT - s.inicio.t))).map
        Account.id = db.accounts.map Account.id := by
      rw [List.map_map]
      apply List.map_congr_left
      intro a _
      unfold rollupAccount
      simp only [Function.comp_apply]
      by_cases hid : (a.id == s.account_id) = true
      · rw [if_pos hid]
      · rw [if_neg hid]
    rw [this]; exact hANd
  · show List.Nodup _
    have : (closeSessions db s m nowT).map Session.id = db.sessions.map Session.id := by
      unfold closeSessions
      rw [List.map_map]
      apply List.map_congr_left
      intro t _
      simp only [Function.comp_apply]
      by_cases hid : (t.id == s.id) = true
      · rw [if_pos hid]
        show (closedOf s m nowT).id = t.id
        have h3 : s.id = t.id := (beq_iff_eq.mp hid).symm
        simp [closedOf, h3]
      · rw [if_neg hid]
    rw [this]; exact hSNd
  · intro t ht
    unfold closeSessions at ht
    obtain ⟨t0, ht0, rfl⟩ := List.mem_map.mp ht
    show _ < db.next_session_id
    by_cases hid : (t0.id == s.id) = true
    · rw [if_pos hid]
      show (closedOf s m nowT).id < db.next_session_id
      have hsid : (closedOf s m nowT).id = s.id := rfl
      rw [hsid]
      exact hFresh s hs
    · rw [if_neg hid]
      exact hFresh t0 ht0
  · exact hQNd

/-- Replacing the quota row with key `(aid, p)` makes a subsequent lookup
of that key return the replacement. -/
theorem find_setQuota_hit :
    ∀ (l : List Quota) (q1 : Quota),
      (l.find? (fun q => q.account_id == q1.account_id &&
          q.provider == q1.provider)).isSome →
      (l.map fun q =>
          if q.account_id == q1.account_id && q.provider == q1.provider then q1
          else q).find? (fun q => q.account_id == q1.account_id &&
            q.provider == q1.provider) = some q1 := by
  intro l
  induction l with
  | nil => intro q1 h3; simp at h3
  | cons q rest ih =>
    intro q1 h3
    by_cases hq : (q.account_id == q1.account_id && q.provider == q1.provider) = true
    · rw [List.map_cons, if_pos hq]
      apply List.find?_cons_of_pos
      simp
    · rw [List.map_cons, if_neg hq]
      have hstep := @List.find?_cons_of_neg Quota
        (fun q => q.account_id == q1.account_id && q.provider == q1.provider) q
        (List.map (fun q =>
          if (q.account_id == q1.account_id && q.provider == q1.provider) = true
          then q1 else q) rest) hq
      rw [hstep]
      apply ih
      have hstep2 := @List.find?_cons_of_neg Quota
        (fun q => q.account_id == q1.account_id && q.provider == q1.provider) q rest hq
      rw [hstep2] at h3
      exact h3

/-- A failed key lookup means the key is absent from the key column. -/
theorem quotaKey_not_mem_of_find_none {l : List Quota} {aid : Nat} {p : Provider}
    (h : l.find? (fun q => q.account_id == aid && q.provider == p) = none) :
    (aid, p) ∉ l.map fun q => (q.account_id, q.provider) := by
  intro hmem
  obtain ⟨q, hq, hkey⟩ := List.mem_map.mp hmem
  have := List.find?_eq_none.mp h q hq
  apply this
  have h1 : q.account_id = aid := congrArg Prod.fst hkey
  have h2 : q.provider = p := congrArg Prod.snd hkey
  simp [h1, h2]

/-- `Session.end_session` with the owning account row present: the session
row is closed in place and the aggregates are rolled into the account. -/
theorem sessionEndSession_owner {db : DB} {s : Session} {a : Account}
    (m : Motivo) (nowT : Int) (haware : s.inicio.aware = true)
    (hF : db.accounts.find? (fun x => x.id == s.account_id) = some a) :
    sessionEndSession db s m nowT =
      ({ db with sessions := closeSessions db s m nowT,
                 accounts := db.accounts.map
                   (rollupAccount s.account_id (nowT - s.inicio.t)) },
       .ok (closedOf s m nowT)) := by
  unfold sessionEndSession pySub
  have hcond : ((⟨nowT, true⟩ : PyDateTime).aware = s.inicio.aware) := by
    rw [haware]
  rw [if_pos hcond]
  simp only [DB.setSession]
  rw [hF]
  simp only [closeSessions, rollupAccount, closedOf]
  rfl

/-- `Session.end_session` with the owning account row missing: the session
row is still closed and committed, but the account rollup is silently
skipped (the account table is untouched). -/
theorem sessionEndSession_orphan {db : DB} {s : Session} (m : Motivo)
    (nowT : Int) (haware : s.inicio.aware = true)
    (hF : db.accounts.find? (fun x => x.id == s.account_id) = none) :
    sessionEndSession db s m nowT =
      ({ db with sessions := closeSessions db s m nowT }, .ok (closedOf s m nowT)) := by
  unfold sessionEndSession pySub
  have hcond : ((⟨nowT, true⟩ : PyDateTime).aware = s.inicio.aware) := by
    rw [haware]
  rw [if_pos hcond]
  simp only [DB.setSession]
  rw [hF]
  simp only [closeSessions, closedOf]

/-- With no active session, `end_session` is the defined no-op: it
returns none and commits nothing. -/
theorem end_session_idle {db : DB} (m : Motivo) (pr : Option PyDateTime)
    (nowT : Int) (hA : get_active_session db = none) :
    end_session db m pr nowT = (db, .ok none) := by
  unfold end_session
  rw [hA]

/-- Rebasing the quota table (with key uniqueness intact) preserves the
pool invariant: no other conjunct reads the quota table. -/
theorem poolInv_set_quotas {db : DB} (hInv : PoolInv db) (qs : List Quota)
    (hNd : (qs.map fun q => (q.account_id, q.provider)).Nodup) :
    PoolInv { db with quotas := qs } := by
  obtain ⟨h1, h2, h3, h4, h5, h6, -⟩ := hInv
  exact ⟨h1, h2, h3, h4, h5, h6, hNd⟩

/-- `find_setQuota_hit` restated with the looked-up key given separately. -/
theorem find_setQuota_hit_key (l : List Quota) (aid : Nat) (p : Provider)
    (q1 : Quota) (h1 : q1.account_id = aid) (h2 : q1.provider = p)
    (h3 : (l.find? (fun q => q.account_id == aid && q.provider == p)).isSome) :
    (l.map fun q =>
        if q.account_id == q1.account_id && q.provider == q1.provider then q1
        else q).find? (fun q => q.account_id == aid && q.provider == p) = some q1 := by
  subst h1
  subst h2
  exact find_setQuota_hit l q1 h3

/-- Full characterisation of `RotationManager.end_session` on a state with
an active session: the session row is closed with the computed duration,
the aggregates are rolled into the owning account, the fresh-id counter is
untouched, the account+provider quota is marked exhausted (created first
if missing) exactly when the reason is 'cuota_agotada' with a reset time
supplied, no open session remains, and the invariant is preserved. -/
theorem end_session_spec {db : DB} {s : Session} (m : Motivo)
    (pr : Option PyDateTime) (nowT : Int) (hInv : PoolInv db)
    (hA : get_active_session db = some s) :
    (end_session db m pr nowT).2 = .ok (some (closedOf s m nowT)) ∧
    (end_session db m pr nowT).1.accounts =
      db.accounts.map (rollupAccount s.account_id (nowT - s.inicio.t)) ∧
    (end_session db m pr nowT).1.sessions = closeSessions db s m nowT ∧
    (end_session db m pr nowT).1.next_session_id = db.next_session_id ∧
    (∀ r, m = .cuota_agotada → pr = some r →
      getQuotaFor (end_session db m pr nowT).1 s.account_id s.provider =
        some ⟨s.account_id, s.provider, .agotada, some r, some ⟨nowT, true⟩⟩) ∧
    ((m = .cuota_agotada → pr = none) →
      (end_session db m pr nowT).1.quotas = db.quotas) ∧
    openCount (end_session db m pr nowT).1 = 0 ∧
    PoolInv (end_session db m pr nowT).1 := by
  obtain ⟨hs, hfin, hany⟩ := active_session_found hA
  have haware : s.inicio.aware = true := (hInv.2.1 s hs hfin).2
  have hex := List.any_eq_true.mp hany
  have hFs : (db.accounts.find? fun x => x.id == s.account_id).isSome :=
    List.find?_isSome.mpr hex
  obtain ⟨a, hFa⟩ := Option.isSome_iff_exists.mp hFs
  have hSES := sessionEndSession_owner m nowT haware hFa
  obtain ⟨hzero, hInvC⟩ := poolInv_close_commit m nowT hInv hs hfin
  unfold end_session
  rw [hA]
  simp only []
  rw [hSES]
  cases m with
  | manual =>
    cases pr with
    | none =>
      refine ⟨rfl, rfl, rfl, rfl, ?_, ?_, hzero, hInvC⟩
      · intro r hm hr; cases hm
      · intro _; rfl
    | some r0 =>
      refine ⟨rfl, rfl, rfl, rfl, ?_, ?_, hzero, hInvC⟩
      · intro r hm hr; cases hm
      · intro _; rfl
  | cuota_agotada =>
    cases pr with
    | none =>
      refine ⟨rfl, rfl, rfl, rfl, ?_, ?_, hzero, hInvC⟩
      · intro r hm hr; cases hr
      · intro _; rfl
    | some r0 =>
      cases hgq : getQuotaFor
          { db with
              sessions := closeSessions db s .cuota_agotada nowT,
              accounts := db.accounts.map
                (rollupAccount s.account_id (nowT - s.inicio.t)) }
          s.account_id s.provider with
      | some q =>
        dsimp only []
        rw [hgq]
        dsimp only []
        obtain ⟨qa, qp, qe, qr, qg⟩ := q
        have hpq := List.find?_some hgq
        rw [Bool.and_eq_true] at hpq
        have hqa : qa = s.account_id := beq_iff_eq.mp hpq.1
        have hqp : qp = s.provider := beq_iff_eq.mp hpq.2
        subst hqa
        subst hqp
        unfold getQuotaFor at hgq
        refine ⟨rfl, rfl, rfl, rfl, ?_, ?_, hzero, ?_⟩
        · intro r hm hr
          injection hr with hr0
          subst hr0
          show (List.map _ _).find? _ = _
          exact find_setQuota_hit_key _ s.account_id s.provider _ rfl rfl
            (by rw [hgq]; rfl)
        · intro h
          exact absurd (h rfl) (by simp)
        · exact (poolInv_skeleton (setQuota_skeleton _ _)).mp hInvC
      | none =>
        dsimp only []
        rw [hgq]
        dsimp only []
        unfold getQuotaFor at hgq
        refine ⟨rfl, rfl, rfl, rfl, ?_, ?_, hzero, ?_⟩
        · intro r hm hr
          injection hr with hr0
          subst hr0
          have hgq2 : List.find?
              (fun x => x.account_id == s.account_id && x.provider == s.provider)
              db.quotas = none := hgq
          have hsingle : (List.find?
              (fun x : Quota => x.account_id == s.account_id && x.provider == s.provider)
              [⟨s.account_id, s.provider, .disponible, none, none⟩]) =
              some ⟨s.account_id, s.provider, .disponible, none, none⟩ :=
            List.find?_cons_of_pos _ (by simp)
          unfold getQuotaFor DB.setQuota
          dsimp only []
          exact find_setQuota_hit_key _ s.account_id s.provider _ rfl rfl
            (by rw [List.find?_append, hgq2, hsingle]; rfl)
        · intro h
          exact absurd (h rfl) (by simp)
        · have hNd : ((({ db with
              sessions := closeSessions db s .cuota_agotada nowT,
              accounts := db.accounts.map
                (rollupAccount s.account_id (nowT - s.inicio.t)),
              quotas := db.quotas ++
                [(⟨s.account_id, s.provider, .disponible, none, none⟩ : Quota)] } : DB).setQuota
              ((⟨s.account_id, s.provider, .disponible, none, none⟩ : Quota).mark_exhausted
                r0 nowT)).quotas.map fun x => (x.account_id, x.provider)).Nodup := by
            rw [setQuota_keys]
            show ((db.quotas ++
              [(⟨s.account_id, s.provider, .disponible, none, none⟩ : Quota)]).map
                fun x => (x.account_id, x.provider)).Nodup
            rw [List.map_append, List.nodup_append]
            refine ⟨hInvC.2.2.2.2.2.2, List.nodup_singleton _, ?_⟩
            intro x hx hx2
            simp only [List.map_cons, List.map_nil, List.mem_singleton] at hx2
            subst hx2
            exact quotaKey_not_mem_of_find_none hgq hx
          exact poolInv_set_quotas hInvC _ hNd

/-- `end_session` preserves the pool invariant on every path. -/
theorem inv_end (db : DB) (m : Motivo) (pr : Option PyDateTime) (nowT : Int)
    (hInv : PoolInv db) : PoolInv (end_session db m pr nowT).1 := by
  cases hA : get_active_session db with
  | none => rw [end_session_idle m pr nowT hA]; exact hInv
  | some s => exact (end_session_spec m pr nowT hInv hA).2.2.2.2.2.2.2

/-- Under the invariant, `end_session` always leaves zero open sessions. -/
theorem end_session_openCount (db : DB) (m : Motivo) (pr : Option PyDateTime)
    (nowT : Int) (hInv : PoolInv db) :
    openCount (end_session db m pr nowT).1 = 0 := by
  cases hA : get_active_session db with
  | none =>
    rw [end_session_idle m pr nowT hA]
    exact openCount_zero_of_no_active hInv hA
  | some s => exact (end_session_spec m pr nowT hInv hA).2.2.2.2.2.2.1

/-- Under the invariant, `end_session` never adds or removes session rows. -/
theorem end_session_sessions_len (db : DB) (m : Motivo) (pr : Option PyDateTime)
    (nowT : Int) (hInv : PoolInv db) :
    (end_session db m pr nowT).1.sessions.length = db.sessions.length := by
  cases hA : get_active_session db with
  | none => rw [end_session_idle m pr nowT hA]
  | some s =>
    rw [(end_session_spec m pr nowT hInv hA).2.2.1]
    unfold closeSessions
    rw [List.length_map]

/-- `rotate_to_next` preserves the pool invariant on every path. -/
theorem inv_rotate (db : DB) (m : Motivo) (pr : Option PyDateTime)
    (auto_start : Bool) (nowT : Int) (hInv : PoolInv db) :
    PoolInv (rotate_to_next db m pr auto_start nowT).1 := by
  unfold rotate_to_next
  have hInv1 := inv_end db m pr nowT hInv
  cases hE : end_session db m pr nowT with
  | mk db1 r =>
    rw [hE] at hInv1
    cases r with
    | error e => exact hInv1
    | ok ended =>
      try dsimp only []
      have hskel := get_best_account_skeleton db1 true nowT
      cases hB : get_best_account db1 true nowT with
      | mk db2 r2 =>
        rw [hB] at hskel
        have hInv2 : PoolInv db2 := (poolInv_skeleton hskel).mp hInv1
        cases r2 with
        | error e => exact hInv2
        | ok cand =>
          try dsimp only []
          cases cand with
          | none => exact hInv2
          | some ap =>
            cases ap with
            | mk acct prov =>
              cases prov with
              | gemini => exact hInv2
              | anthropic =>
                try dsimp only []
                cases auto_start with
                | false => exact hInv2
                | true =>
                  try dsimp only []
                  have hInv3 := inv_start db2 acct.id .anthropic nowT hInv2
                  cases hS : start_session db2 acct.id .anthropic nowT with
                  | mk db3 r3 =>
                    rw [hS] at hInv3
                    cases r3 with
                    | error e => exact hInv3
                    | ok ns => exact hInv3

/-- Every engine call preserves the pool invariant. -/
theorem inv_step (db : DB) (c : Cmd) (hInv : PoolInv db) : PoolInv (step db c) := by
  cases c with
  | start aid p n => exact inv_start db aid p n hInv
  | finish m pr n => exact inv_end db m pr n hInv
  | rotate m pr auto n => exact inv_rotate db m pr auto n hInv

/-- Any sequence of engine calls preserves the pool invariant. -/
theorem inv_run : ∀ (cmds : List Cmd) (db : DB), PoolInv db → PoolInv (run db cmds) := by
  intro cmds
  induction cmds with
  | nil => intro db h; exact h
  | cons c cs ih =>
    intro db h
    exact ih (step db c) (inv_step db c h)

/-- Under the invariant, at most one account row is active, because active
accounts each own an open session, there is at most one open session, and
account ids are unique. -/
theorem activeCount_le_one {db : DB} (hInv : PoolInv db) : activeCount db ≤ 1 := by
  obtain ⟨hle, hOwn, hSync, hANd, -, -, -⟩ := hInv
  by_cases hopen : ∃ s ∈ db.sessions, s.fin = none
  · obtain ⟨s, hs, hfin⟩ := hopen
    have hle2 : db.sessions.countP (fun t => t.fin.isNone) ≤ 1 := hle
    have hsub : activeCount db ≤
        db.accounts.countP (fun a => a.id == s.account_id) := by
      apply List.countP_mono_left
      intro a ha hact
      obtain ⟨t, ht, htfin, hta⟩ := (hSync a ha).mp hact
      have hts : t = s :=
        countP_le_one_unique hle2 hs (Option.isNone_iff_eq_none.mpr hfin) ht
          (Option.isNone_iff_eq_none.mpr htfin)
      rw [hts] at hta
      simp [hta]
    calc activeCount db ≤ db.accounts.countP (fun a => a.id == s.account_id) := hsub
      _ ≤ 1 := countP_eq_le_one_of_nodup_map Account.id hANd s.account_id
  · have : activeCount db = 0 := by
      unfold activeCount
      rw [List.countP_eq_zero]
      intro a ha hact
      obtain ⟨t, ht, htfin, -⟩ := (hSync a ha).mp hact
      exact hopen ⟨t, ht, htfin⟩
    omega

/-- C1.  For every pool state satisfying the well-formedness invariant and
every sequence of `start_session`, `end_session` and `rotate_to_next`
calls, the resulting state has at most one open SessionRecord
(`fin IS NULL`) and at most one account with `activa = true`: the three
operations jointly maintain the global single-session invariant. -/
theorem c1_single_session_invariant (db : DB) (cmds : List Cmd)
    (hInv : PoolInv db) :
    openCount (run db cmds) ≤ 1 ∧ activeCount (run db cmds) ≤ 1 := by
  have h := inv_run cmds db hInv
  exact ⟨h.1, activeCount_le_one h⟩

/-- A one-account pool used as concrete invariant-satisfying input. -/
def dbW1 : DB := ⟨[⟨1, false, 0, 0, ⟨0, true⟩⟩], [], [], 0⟩

/-- A concrete call sequence: start, end, then a rotation. -/
def cmdsW1 : List Cmd :=
  [.start 1 .anthropic 5, .finish .manual none 9,
   .rotate .cuota_agotada (some ⟨100, true⟩) true 12]

theorem c1_single_session_invariant_witness :
    PoolInv dbW1 ∧
      (openCount (run dbW1 cmdsW1) ≤ 1 ∧ activeCount (run dbW1 cmdsW1) ≤ 1) :=
  ⟨by decide, c1_single_session_invariant dbW1 cmdsW1 (by decide)⟩

/-- What C6 asserts of `end_session`: the idle no-op (idempotent), the
closing of the open session with computed duration, the account rollup,
and the conditional quota marking. -/
def EndSessionClaim (db : DB) (m : Motivo) (pr : Option PyDateTime)
    (nowT : Int) : Prop :=
  (get_active_session db = none →
    end_session db m pr nowT = (db, .ok none) ∧
    end_session (end_session db m pr nowT).1 m pr nowT =
      ((end_session db m pr nowT).1, .ok none)) ∧
  (∀ s, get_active_session db = some s →
    (end_session db m pr nowT).2 = .ok (some (closedOf s m nowT)) ∧
    (closedOf s m nowT).fin = some ⟨nowT, true⟩ ∧
    (closedOf s m nowT).motivo_fin = some m ∧
    (closedOf s m nowT).duracion = some (nowT - s.inicio.t) ∧
    (end_session db m pr nowT).1.accounts =
      db.accounts.map (rollupAccount s.account_id (nowT - s.inicio.t)) ∧
    (end_session db m pr nowT).1.sessions = closeSessions db s m nowT ∧
    (∀ r, m = .cuota_agotada → pr = some r →
      getQuotaFor (end_session db m pr nowT).1 s.account_id s.provider =
        some ⟨s.account_id, s.provider, .agotada, some r, some ⟨nowT, true⟩⟩) ∧
    ((m = .cuota_agotada → pr = none) →
      (end_session db m pr nowT).1.quotas = db.quotas) ∧
    end_session (end_session db m pr nowT).1 m pr nowT =
      ((end_session db m pr nowT).1, .ok none))

/-- C6.  `end_session` with no active session is a defined no-op returning
none, and a second consecutive call also returns none and changes nothing;
otherwise it closes the open session (endedAt = now, endReason = reason,
duration = endedAt - startedAt), rolls active-flag/usage-count/cumulative
duration into the owning account, and marks the session's
account+provider quota exhausted with the supplied reset time — creating
the quota row first if missing — exactly when the reason is
'cuota_agotada' and a reset time is supplied. -/
theorem c6_end_session (db : DB) (m : Motivo) (pr : Option PyDateTime)
    (nowT : Int) (hInv : PoolInv db) : EndSessionClaim db m pr nowT := by
  constructor
  · intro hA
    have h1 := end_session_idle m pr nowT hA
    rw [h1]
    exact ⟨rfl, end_session_idle m pr nowT hA⟩
  · intro s hA
    have spec := end_session_spec m pr nowT hInv hA
    refine ⟨spec.1, rfl, rfl, rfl, spec.2.1, spec.2.2.1, spec.2.2.2.2.1,
      spec.2.2.2.2.2.1, ?_⟩
    exact end_session_idle m pr nowT
      (no_active_of_openCount_zero spec.2.2.2.2.2.2.1)

/-- A pool with one account and one open session, for the C6 witness. -/
def dbW6 : DB :=
  ⟨[⟨1, true, 0, 0, ⟨0, true⟩⟩], [],
   [⟨0, 1, .anthropic, ⟨5, true⟩, none, none, none⟩], 1⟩

theorem c6_end_session_witness :
    PoolInv dbW6 ∧ EndSessionClaim dbW6 .cuota_agotada (some ⟨100, true⟩) 9 :=
  ⟨by decide, c6_end_session dbW6 .cuota_agotada (some ⟨100, true⟩) 9 (by decide)⟩

/-- What C7 asserts of `start_session`: the three preconditions are
checked in order, each producing its own typed error (never a silent
no-op), and only when all pass is an open session row created and the
account marked active. -/
def StartSessionClaim (db : DB) (aid : Nat) (p : Provider) (nowT : Int) : Prop :=
  (∀ s, get_active_session db = some s →
    start_session db aid p nowT = (db, .error .conflictActiveSession)) ∧
  (get_active_session db = none →
    db.accounts.find? (fun a => a.id == aid) = none →
    start_session db aid p nowT = (db, .error .accountNotFound)) ∧
  (∀ a db1, get_active_session db = none →
    db.accounts.find? (fun a => a.id == aid) = some a →
    accountProviderAvailable db aid p nowT = (db1, .ok false) →
    start_session db aid p nowT = (db1, .error (.quotaExhausted p))) ∧
  (∀ a db1, get_active_session db = none →
    db.accounts.find? (fun a => a.id == aid) = some a →
    accountProviderAvailable db aid p nowT = (db1, .ok true) →
    start_session db aid p nowT =
      ({ db1 with
           sessions := db1.sessions ++
             [⟨db1.next_session_id, aid, p, ⟨nowT, true⟩, none, none, none⟩],
           accounts := db1.accounts.map fun x =>
             if x.id == aid then { x with activa := true } else x,
           next_session_id := db1.next_session_id + 1 },
       .ok ⟨db1.next_session_id, aid, p, ⟨nowT, true⟩, none, none, none⟩))

/-- C7.  `start_session` checks its preconditions in order — active
session (Conflict), account existence (NotFound), provider quota
availability re-checked at call time (QuotaExhausted) — each failing with
its own distinct error; only when all pass does it create a session row
with `fin = none` and mark the account active. -/
theorem c7_start_session_preconditions (db : DB) (aid : Nat) (p : Provider)
    (nowT : Int) : StartSessionClaim db aid p nowT := by
  refine ⟨?_, ?_, ?_, ?_⟩
  · intro s hA; exact start_session_conflict aid p nowT hA
  · intro hA hF; exact start_session_notFound p nowT hA hF
  · intro a db1 hA hF hq; exact start_session_quotaEx hA hF hq
  · intro a db1 hA hF hq; exact start_session_ok hA hF hq

theorem c7_start_session_preconditions_witness :
    StartSessionClaim dbW1 1 .anthropic 0 :=
  c7_start_session_preconditions dbW1 1 .anthropic 0

/-- The session returned by a successful `start_session` carries the
requested provider and is open. -/
theorem start_session_provider {db db3 : DB} {aid : Nat} {p : Provider}
    {nowT : Int} {ns : Session}
    (h : start_session db aid p nowT = (db3, .ok ns)) :
    ns.provider = p ∧ ns.fin = none := by
  cases hA : get_active_session db with
  | some s =>
    rw [start_session_conflict aid p nowT hA] at h
    injection h with h1 h2
    cases h2
  | none =>
    cases hF : db.accounts.find? (fun a => a.id == aid) with
    | none =>
      rw [start_session_notFound p nowT hA hF] at h
      injection h with h1 h2
      cases h2
    | some a =>
      cases hq : accountProviderAvailable db aid p nowT with
      | mk db1 r =>
        cases r with
        | error e =>
          have heq : start_session db aid p nowT = (db1, .error e) := by
            unfold start_session; rw [hA, hF, hq]
          rw [heq] at h
          injection h with h1 h2
          cases h2
        | ok b =>
          cases b with
          | false =>
            rw [start_session_quotaEx hA hF hq] at h
            injection h with h1 h2
            cases h2
          | true =>
            rw [start_session_ok hA hF hq] at h
            injection h with h1 h2
            injection h2 with h3
            rw [← h3]
            exact ⟨rfl, rfl⟩

/-- What C4 asserts of `rotate_to_next`: a gemini-only candidate is
reported with `needs_user_choice` and the earliest known anthropic reset,
with no session started even under `auto_start`; any session the call does
start is on the preferred (anthropic) provider. -/
def RotateClaim (db : DB) (m : Motivo) (pr : Option PyDateTime) (auto : Bool)
    (nowT : Int) : Prop :=
  ∀ db2 r, rotate_to_next db m pr auto nowT = (db2, .ok r) →
    (r.next_provider = some .gemini →
      r.needs_user_choice = true ∧ r.new_session = none ∧ r.rotated = false ∧
      r.next_anthropic_reset = some (get_next_anthropic_reset db2) ∧
      openCount db2 = 0 ∧ db2.sessions.length = db.sessions.length) ∧
    (∀ ns, r.new_session = some ns → ns.provider = .anthropic ∧ ns.fin = none)

/-- C4.  If `rotate_to_next` finds that the only candidate requires the
non-preferred (gemini) provider, its result has `needs_user_choice = true`,
carries the next known anthropic reset time, and no new session is started
even with `auto_start = true` (no session row is added and none is open);
a new session is only ever started on the preferred anthropic provider. -/
theorem c4_rotate_no_silent_fallback (db : DB) (m : Motivo)
    (pr : Option PyDateTime) (auto : Bool) (nowT : Int) (hInv : PoolInv db) :
    RotateClaim db m pr auto nowT := by
  intro db2 r hr
  unfold rotate_to_next at hr
  have hzero := end_session_openCount db m pr nowT hInv
  have hlen := end_session_sessions_len db m pr nowT hInv
  cases hE : end_session db m pr nowT with
  | mk db1 re =>
    rw [hE] at hr hzero hlen
    cases re with
    | error e => injection hr with h1 h2; cases h2
    | ok ended =>
      try dsimp only [] at hr
      have hskel := get_best_account_skeleton db1 true nowT
      cases hB : get_best_account db1 true nowT with
      | mk dbb rb =>
        rw [hB] at hr hskel
        cases rb with
        | error e => injection hr with h1 h2; cases h2
        | ok cand =>
          try dsimp only [] at hr
          cases cand with
          | none =>
            injection hr with h1 h2
            injection h2 with h3
            subst h1
            rw [← h3]
            constructor
            · intro hgem; cases hgem
            · intro ns hns; cases hns
          | some ap =>
            cases ap with
            | mk acct prov =>
              cases prov with
              | gemini =>
                injection hr with h1 h2
                injection h2 with h3
                subst h1
                rw [← h3]
                refine ⟨?_, ?_⟩
                · intro _
                  refine ⟨rfl, rfl, rfl, rfl, ?_, ?_⟩
                  · show openCount dbb = 0
                    unfold openCount
                    rw [hskel.2.1]
                    exact hzero
                  · rw [hskel.2.1]
                    exact hlen
                · intro ns hns; cases hns
              | anthropic =>
                cases auto with
                | false =>
                  try dsimp only [] at hr
                  injection hr with h1 h2
                  injection h2 with h3
                  subst h1
                  rw [← h3]
                  constructor
                  · intro hgem
                    injection hgem with h4
                    cases h4
                  · intro ns hns; cases hns
                | true =>
                  try dsimp only [] at hr
                  cases hS : start_session dbb acct.id .anthropic nowT with
                  | mk db3 r3 =>
                    rw [hS] at hr
                    cases r3 with
                    | error e => injection hr with h1 h2; cases h2
                    | ok ns0 =>
                      try dsimp only [] at hr
                      injection hr with h1 h2
                      injection h2 with h3
                      subst h1
                      rw [← h3]
                      constructor
                      · intro hgem
                        injection hgem with h4
                        cases h4
                      · intro ns hns
                        injection hns with h5
                        subst h5
                        exact start_session_provider hS

/-- A pool whose only account has its anthropic quota exhausted until a
future reset, leaving only gemini available. -/
def dbW4 : DB :=
  ⟨[⟨1, false, 0, 0, ⟨0, true⟩⟩],
   [⟨1, .anthropic, .agotada, some ⟨1000, true⟩, some ⟨0, true⟩⟩], [], 0⟩

theorem c4_rotate_no_silent_fallback_witness :
    PoolInv dbW4 ∧ RotateClaim dbW4 .cuota_agotada none true 5 :=
  ⟨by decide, c4_rotate_no_silent_fallback dbW4 .cuota_agotada none true 5 (by decide)⟩

/-- What the amended C10 asserts: with the owning account row gone, the
manager-level `end_session` does not see the orphan session (its lookup
joins the accounts table) and no-ops with none, while the model-level
`Session.end_session`, invoked directly, still closes the session and
silently skips the account rollup (the account table is untouched). -/
def OrphanEndClaim (db : DB) (s : Session) (m : Motivo)
    (pr : Option PyDateTime) (nowT : Int) : Prop :=
  ((∀ t ∈ db.sessions, t.fin = none →
      (db.accounts.all fun a => !(a.id == t.account_id)) = true) →
    end_session db m pr nowT = (db, .ok none)) ∧
  (s.inicio.aware = true →
    (db.accounts.all fun a => !(a.id == s.account_id)) = true →
    sessionEndSession db s m nowT =
      ({ db with sessions := closeSessions db s m nowT },
       .ok (closedOf s m nowT)))

/-- C10 (amended).  When the owning account row no longer exists, the
manager-level `end_session` returns none without closing anything — the
active-session query joins the accounts table, so the orphan open session
is invisible to it — whereas the model-level `Session.end_session` still
closes the session (sets `fin`, `motivo_fin`, `duracion`) and silently
skips the account-aggregate rollup. -/
theorem c10_orphan_end_session (db : DB) (s : Session) (m : Motivo)
    (pr : Option PyDateTime) (nowT : Int) : OrphanEndClaim db s m pr nowT := by
  constructor
  · intro hall
    apply end_session_idle
    unfold get_active_session
    rw [List.find?_eq_none]
    intro t ht hp
    rw [Bool.and_eq_true] at hp
    have h1 := hall t ht (Option.isNone_iff_eq_none.mp hp.1)
    rw [List.all_eq_true] at h1
    obtain ⟨a, ha, haid⟩ := List.any_eq_true.mp hp.2
    have := h1 a ha
    rw [haid] at this
    cases this
  · intro haware hall
    apply sessionEndSession_orphan m nowT haware
    rw [List.find?_eq_none]
    intro a ha hp
    rw [List.all_eq_true] at hall
    have := hall a ha
    rw [hp] at this
    cases this

/-- An orphan open session: its `account_id` matches no account row. -/
def sW10 : Session := ⟨0, 99, .anthropic, ⟨5, true⟩, none, none, none⟩

/-- A pool containing only the orphan open session `sW10`. -/
def dbW10 : DB := ⟨[⟨1, false, 0, 0, ⟨0, true⟩⟩], [], [sW10], 1⟩

theorem c10_orphan_end_session_witness :
    sW10.inicio.aware = true ∧ OrphanEndClaim dbW10 sW10 .manual none 9 :=
  ⟨by decide, c10_orphan_end_session dbW10 sW10 .manual none 9⟩

/-- C10 counterexample to the claim as stated: with the owning account
row absent, `end_session` returns none rather than the closed session, and
the orphan session row remains open (its `fin` is still null). -/
theorem c10_counterexample :
    end_session dbW10 .manual none 9 = (dbW10, .ok none) ∧
      dbW10.sessions.countP (fun t => t.fin.isNone) = 1 := by
  constructor
  · rfl
  · rfl

/-- An exhausted quota whose stored reset time is timezone-naive, as
rows read back from a SQLite `DateTime` column are. -/
def qC2 : Quota := ⟨1, .anthropic, .agotada, some ⟨50, false⟩, none⟩

/-- C2.  The availability check does not normalise a naive stored
`proximo_reset`: the code re-attaches UTC to the already-aware `now`
instead of fixing the naive side, so `is_available` on an exhausted quota
with a naive reset time raises `TypeError` (modelled as `.error`) instead
of returning a boolean; with the same reset time stored aware it returns
normally.  This contradicts both the spec's normalisation requirement and
the code's own comment claiming to handle offset-naive values. -/
theorem c2_naive_reset_raises :
    Quota.is_available qC2 100 = .error .typeError ∧
    Quota.is_available { qC2 with proximo_reset := some ⟨50, true⟩ } 100 =
      .ok (true, Quota.reset { qC2 with proximo_reset := some ⟨50, true⟩ }) := by
  exact ⟨rfl, rfl⟩

/-- What the amended C5 asserts: for an Available quota `is_available` is
true without side effects; for an Exhausted quota with a timezone-aware
`proximo_reset` it resets and returns true exactly when `now` has reached
the reset time; and `mark_exhausted` with an aware reset time already in
the past self-heals on the next `is_available` with no separate reclaim. -/
def QuotaLifecycleClaim (q : Quota) (nowT : Int) : Prop :=
  (q.estado = .disponible → q.is_available nowT = .ok (true, q)) ∧
  (∀ r, q.estado = .agotada → q.proximo_reset = some r → r.aware = true →
    (r.t ≤ nowT → q.is_available nowT = .ok (true, q.reset)) ∧
    (nowT < r.t → q.is_available nowT = .ok (false, q))) ∧
  (∀ r nowE, r.aware = true → r.t ≤ nowT →
    (q.mark_exhausted r nowE).is_available nowT =
      .ok (true, (q.mark_exhausted r nowE).reset))

/-- C5 (amended).  `is_available` returns true on an Available quota;
on an Exhausted quota whose `proximo_reset` is stored timezone-aware it
performs the reset transition and returns true exactly when
`now ≥ proximo_reset` and returns false otherwise; consequently
`mark_exhausted` with an aware reset time in the past followed immediately
by `is_available` returns true with no separate reclaim call.  (With a
naive reset time the check raises instead — see the counterexample.) -/
theorem c5_quota_lifecycle (q : Quota) (nowT : Int) :
    QuotaLifecycleClaim q nowT := by
  refine ⟨?_, ?_, ?_⟩
  · intro h
    unfold Quota.is_available
    rw [if_pos h]
  · intro r he hr haw
    have hne : ¬(q.estado = .disponible) := by rw [he]; intro h; cases h
    constructor
    · intro hle
      unfold Quota.is_available pyGe
      rw [if_neg hne, hr]
      dsimp only []
      rw [if_pos (show (⟨nowT, true⟩ : PyDateTime).aware = r.aware by rw [haw])]
      dsimp only []
      rw [if_pos (by simpa using hle)]
    · intro hlt
      unfold Quota.is_available pyGe
      rw [if_neg hne, hr]
      dsimp only []
      rw [if_pos (show (⟨nowT, true⟩ : PyDateTime).aware = r.aware by rw [haw])]
      dsimp only []
      rw [if_neg (by simpa using Int.not_le.mpr hlt)]
  · intro r nowE haw hle
    unfold Quota.mark_exhausted Quota.is_available pyGe
    rw [if_neg (show ¬((QuotaEstado.agotada : QuotaEstado) = .disponible) from fun h => nomatch h)]
    dsimp only []
    rw [if_pos (show (⟨nowT, true⟩ : PyDateTime).aware = r.aware by rw [haw])]
    dsimp only []
    rw [if_pos (by simpa using hle)]

/-- C5 counterexample to the claim as stated: `mark_exhausted` with a
reset time in the past (stored naive) followed immediately by
`is_available` raises `TypeError` instead of returning true, although
`now ≥ resetAt` holds. -/
theorem c5_counterexample :
    ((⟨1, .gemini, .disponible, none, none⟩ : Quota).mark_exhausted
        ⟨0, false⟩ 0).is_available 10 = .error .typeError ∧ (0 : Int) ≤ 10 := by
  exact ⟨rfl, by decide⟩

theorem c5_quota_lifecycle_witness :
    QuotaLifecycleClaim ⟨1, .anthropic, .agotada, some ⟨10, true⟩, some ⟨0, true⟩⟩ 20 :=
  c5_quota_lifecycle ⟨1, .anthropic, .agotada, some ⟨10, true⟩, some ⟨0, true⟩⟩ 20

/-- What C8 asserts: a provider with no quota row is available (fail-open),
and the classification is the exact truth table over the two availability
results. -/
def ClassificationClaim (db : DB) (aid : Nat) (nowT : Int) : Prop :=
  (getQuotaFor db aid .anthropic = none →
    accountProviderAvailable db aid .anthropic nowT = (db, .ok true)) ∧
  (getQuotaFor db aid .gemini = none →
    accountProviderAvailable db aid .gemini nowT = (db, .ok true)) ∧
  (∀ db1 db2 aAvail gAvail,
    accountProviderAvailable db aid .anthropic nowT = (db1, .ok aAvail) →
    accountProviderAvailable db1 aid .gemini nowT = (db2, .ok gAvail) →
    ∃ c, get_classification db aid nowT = (db2, .ok c) ∧
      (c = .disponible ↔ aAvail = true ∧ gAvail = true) ∧
      (c = .limite_parcial ↔
        ((aAvail = true ∨ gAvail = true) ∧ ¬(aAvail = true ∧ gAvail = true))) ∧
      (c = .limite_total ↔ (aAvail = false ∧ gAvail = false)))

/-- C8.  A provider with no configured quota row is treated as available
(fail-open) rather than an error, and `get_classification` maps the two
availability results exactly to: 'disponible' when both are available,
'limite_parcial' when exactly one is, 'limite_total' when neither is. -/
theorem c8_fail_open_classification (db : DB) (aid : Nat) (nowT : Int) :
    ClassificationClaim db aid nowT := by
  refine ⟨?_, ?_, ?_⟩
  · intro h
    unfold accountProviderAvailable
    rw [h]
  · intro h
    unfold accountProviderAvailable
    rw [h]
  · intro db1 db2 aAvail gAvail h1 h2
    refine ⟨if aAvail && gAvail then .disponible
            else if aAvail || gAvail then .limite_parcial
            else .limite_total, ?_, ?_⟩
    · unfold get_classification
      rw [h1]
      dsimp only []
      rw [h2]
    · cases aAvail <;> cases gAvail <;> refine ⟨?_, ?_, ?_⟩ <;> constructor <;>
        intro h <;> simp_all

/-- The side-effect-free availability value of a single quota row, for
states whose exhausted rows store timezone-aware reset times. -/
def availQuota (q : Quota) (nowT : Int) : Bool :=
  match q.estado, q.proximo_reset with
  | .disponible, _ => true
  | .agotada, some r => r.aware && decide (r.t ≤ nowT)
  | .agotada, none => false

/-- The side-effect-free mirror of the per-account availability check
(fail-open on a missing row). -/
def availPure (db : DB) (aid : Nat) (p : Provider) (nowT : Int) : Bool :=
  match getQuotaFor db aid p with
  | none => true
  | some q => availQuota q nowT

/-- All exhausted quota rows store timezone-aware reset times — the
regime in which the availability check does not raise. -/
def AwareResets (db : DB) : Prop :=
  ∀ q ∈ db.quotas, q.estado = .agotada →
    ∀ r, q.proximo_reset = some r → r.aware = true

instance (db : DB) : Decidable (AwareResets db) := by
  unfold AwareResets
  infer_instance

/-- Replacing a quota row with one whose reset stays aware preserves
`AwareResets`. -/
theorem awareResets_setQuota {db : DB} (H : AwareResets db) {q1 : Quota}
    (h : q1.estado = .agotada → ∀ r, q1.proximo_reset = some r → r.aware = true) :
    AwareResets (db.setQuota q1) := by
  intro q' hq' he r hr
  obtain ⟨q0, hq0, hrep⟩ := List.mem_map.mp hq'
  by_cases hc : (q0.account_id == q1.account_id && q0.provider == q1.provider) = true
  · rw [if_pos hc] at hrep
    subst hrep
    exact h he r hr
  · rw [if_neg hc] at hrep
    subst hrep
    exact H q0 hq0 he r hr

/-- `List.find?_cons_of_pos` with the predicate passed explicitly (avoids
higher-order unification in rewrites). -/
theorem find_cons_pos {α : Type} (pred : α → Bool) (x : α) (l : List α)
    (h : pred x = true) : List.find? pred (x :: l) = some x :=
  List.find?_cons_of_pos l h

/-- `List.find?_cons_of_neg` with the predicate passed explicitly. -/
theorem find_cons_neg {α : Type} (pred : α → Bool) (x : α) (l : List α)
    (h : ¬pred x = true) : List.find? pred (x :: l) = List.find? pred l :=
  List.find?_cons_of_neg l h

/-- Replacing a quota row by one absent from the looked-up key leaves that
lookup unchanged. -/
theorem find_setQuota_miss :
    ∀ (l : List Quota) (q1 : Quota) (aid1 : Nat) (p1 : Provider),
      ¬(q1.account_id = aid1 ∧ q1.provider = p1) →
      (l.map fun q =>
          if q.account_id == q1.account_id && q.provider == q1.provider then q1
          else q).find? (fun q => q.account_id == aid1 && q.provider == p1) =
        l.find? (fun q => q.account_id == aid1 && q.provider == p1) := by
  intro l
  induction l with
  | nil => intro q1 aid1 p1 h; rfl
  | cons q rest ih =>
    intro q1 aid1 p1 h
    rw [List.map_cons]
    by_cases hc : (q.account_id == q1.account_id && q.provider == q1.provider) = true
    · rw [if_pos hc]
      rw [Bool.and_eq_true] at hc
      have hca : q.account_id = q1.account_id := beq_iff_eq.mp hc.1
      have hcp : q.provider = q1.provider := beq_iff_eq.mp hc.2
      have hq1 : ¬((q1.account_id == aid1 && q1.provider == p1) = true) := by
        intro hx
        rw [Bool.and_eq_true] at hx
        exact h ⟨beq_iff_eq.mp hx.1, beq_iff_eq.mp hx.2⟩
      have hq : ¬((q.account_id == aid1 && q.provider == p1) = true) := by
        intro hx
        rw [Bool.and_eq_true] at hx
        exact h ⟨hca ▸ beq_iff_eq.mp hx.1, hcp ▸ beq_iff_eq.mp hx.2⟩
      rw [find_cons_neg (fun q => q.account_id == aid1 && q.provider == p1) q1 _ hq1,
          find_cons_neg (fun q => q.account_id == aid1 && q.provider == p1) q _ hq]
      exact ih q1 aid1 p1 h
    · rw [if_neg hc]
      by_cases hq : (q.account_id == aid1 && q.provider == p1) = true
      · rw [find_cons_pos (fun q => q.account_id == aid1 && q.provider == p1) q _ hq,
            find_cons_pos (fun q => q.account_id == aid1 && q.provider == p1) q _ hq]
      · rw [find_cons_neg (fun q => q.account_id == aid1 && q.provider == p1) q _ hq,
            find_cons_neg (fun q => q.account_id == aid1 && q.provider == p1) q _ hq]
        exact ih q1 aid1 p1 h

/-- Replacing a quota row by one with the same pure availability value
leaves every pure availability lookup unchanged. -/
theorem availPure_setQuota {db : DB} {q0 q1 : Quota} (nowT : Int)
    (hg : getQuotaFor db q1.account_id q1.provider = some q0)
    (hv : availQuota q1 nowT = availQuota q0 nowT) :
    ∀ aid1 p1, availPure (db.setQuota q1) aid1 p1 nowT = availPure db aid1 p1 nowT := by
  intro aid1 p1
  by_cases hk : q1.account_id = aid1 ∧ q1.provider = p1
  · unfold availPure
    rw [← hk.1, ← hk.2]
    have hhit : getQuotaFor (db.setQuota q1) q1.account_id q1.provider = some q1 := by
      unfold getQuotaFor DB.setQuota
      exact find_setQuota_hit_key _ _ _ _ rfl rfl (by rw [show
        db.quotas.find? (fun q => q.account_id == q1.account_id &&
          q.provider == q1.provider) = some q0 from hg]; rfl)
    rw [hhit, hg]
    exact hv
  · unfold availPure getQuotaFor DB.setQuota
    rw [find_setQuota_miss db.quotas q1 aid1 p1 hk]

/-- Under `AwareResets`, the per-account availability check never raises:
it returns the pure availability value, keeps `AwareResets`, and leaves
every pure availability value unchanged (a lazy reset replaces an
already-due exhausted row by an available one). -/
theorem apa_pure (db : DB) (aid : Nat) (p : Provider) (nowT : Int)
    (H : AwareResets db) :
    accountProviderAvailable db aid p nowT =
      ((accountProviderAvailable db aid p nowT).1, .ok (availPure db aid p nowT)) ∧
    AwareResets (accountProviderAvailable db aid p nowT).1 ∧
    (∀ aid1 p1, availPure (accountProviderAvailable db aid p nowT).1 aid1 p1 nowT =
      availPure db aid1 p1 nowT) := by
  cases hg : getQuotaFor db aid p with
  | none =>
    have happ : accountProviderAvailable db aid p nowT = (db, .ok true) := by
      unfold accountProviderAvailable
      rw [hg]
    have hav : availPure db aid p nowT = true := by
      unfold availPure
      rw [hg]
    rw [happ, hav]
    exact ⟨rfl, H, fun _ _ => rfl⟩
  | some q =>
    have hkeyq := List.find?_some hg
    rw [Bool.and_eq_true] at hkeyq
    have hqa : q.account_id = aid := beq_iff_eq.mp hkeyq.1
    have hqp : q.provider = p := beq_iff_eq.mp hkeyq.2
    have hgq : getQuotaFor db q.account_id q.provider = some q := by
      rw [hqa, hqp]; exact hg
    have hmem := List.mem_of_find?_eq_some hg
    have hav : availPure db aid p nowT = availQuota q nowT := by
      unfold availPure
      rw [hg]
    cases he : q.estado with
    | disponible =>
      have hia : q.is_available nowT = .ok (true, q) := by
        unfold Quota.is_available
        rw [if_pos he]
      have happ : accountProviderAvailable db aid p nowT = (db.setQuota q, .ok true) := by
        unfold accountProviderAvailable
        rw [hg]
        dsimp only []
        rw [hia]
      have havq : availQuota q nowT = true := by
        unfold availQuota
        rw [he]
      rw [happ, hav, havq]
      refine ⟨rfl, awareResets_setQuota H (fun h2 => absurd (he.symm.trans h2) (by decide)), ?_⟩
      intro aid1 p1
      exact availPure_setQuota nowT hgq rfl aid1 p1
    | agotada =>
      have hne : ¬(q.estado = .disponible) := by rw [he]; intro h2; cases h2
      cases hr : q.proximo_reset with
      | none =>
        have hia : q.is_available nowT = .ok (false, q) := by
          unfold Quota.is_available
          rw [if_neg hne, hr]
        have happ : accountProviderAvailable db aid p nowT =
            (db.setQuota q, .ok false) := by
          unfold accountProviderAvailable
          rw [hg]
          dsimp only []
          rw [hia]
        have havq : availQuota q nowT = false := by
          unfold availQuota
          rw [he, hr]
        rw [happ, hav, havq]
        refine ⟨rfl, awareResets_setQuota H (fun _ r2 hr2 => H q hmem he r2 hr2), ?_⟩
        intro aid1 p1
        exact availPure_setQuota nowT hgq rfl aid1 p1
      | some r =>
        have haw : r.aware = true := H q hmem he r hr
        have havq : availQuota q nowT = decide (r.t ≤ nowT) := by
          unfold availQuota
          rw [he, hr]
          dsimp only []
          rw [haw]
          simp
        cases hle : decide (r.t ≤ nowT) with
        | true =>
          have hia : q.is_available nowT = .ok (true, q.reset) := by
            unfold Quota.is_available pyGe
            rw [if_neg hne, hr]
            dsimp only []
            rw [if_pos (show (⟨nowT, true⟩ : PyDateTime).aware = r.aware by rw [haw])]
            dsimp only []
            rw [if_pos hle]
          have happ : accountProviderAvailable db aid p nowT =
              (db.setQuota q.reset, .ok true) := by
            unfold accountProviderAvailable
            rw [hg]
            dsimp only []
            rw [hia]
          rw [happ, hav, havq, hle]
          have hgq2 : getQuotaFor db (q.reset).account_id (q.reset).provider = some q := hgq
          refine ⟨rfl,
            awareResets_setQuota H (fun h2 => absurd h2 (by unfold Quota.reset; intro h3; cases h3)), ?_⟩
          intro aid1 p1
          apply availPure_setQuota nowT hgq2
          show availQuota q.reset nowT = availQuota q nowT
          rw [havq, hle]
          unfold availQuota Quota.reset
          rfl
        | false =>
          have hia : q.is_available nowT = .ok (false, q) := by
            unfold Quota.is_available pyGe
            rw [if_neg hne, hr]
            dsimp only []
            rw [if_pos (show (⟨nowT, true⟩ : PyDateTime).aware = r.aware by rw [haw])]
            dsimp only []
            rw [if_neg (by rw [hle]; intro h2; cases h2)]
          have happ : accountProviderAvailable db aid p nowT =
              (db.setQuota q, .ok false) := by
            unfold accountProviderAvailable
            rw [hg]
            dsimp only []
            rw [hia]
          rw [happ, hav, havq, hle]
          refine ⟨rfl, awareResets_setQuota H (fun _ r2 hr2 => H q hmem he r2 hr2), ?_⟩
          intro aid1 p1
          exact availPure_setQuota nowT hgq rfl aid1 p1

/-- Under `AwareResets`, the availability scan of
`get_available_accounts` returns exactly the accounts whose pure
availability holds, in stored order, and leaves every pure availability
value (and `AwareResets`) intact. -/
theorem gaaLoop_pure (p : Provider) (nowT : Int) :
    ∀ (accts : List Account) (db : DB), AwareResets db →
      (gaaLoop db accts (some p) nowT).2 =
        .ok (accts.filter fun a => availPure db a.id p nowT) ∧
      AwareResets (gaaLoop db accts (some p) nowT).1 ∧
      (∀ aid1 p1, availPure (gaaLoop db accts (some p) nowT).1 aid1 p1 nowT =
        availPure db aid1 p1 nowT) := by
  intro accts
  induction accts with
  | nil => intro db H; exact ⟨rfl, H, fun _ _ => rfl⟩
  | cons a rest ih =>
    intro db H
    obtain ⟨happ, H1, hstab⟩ := apa_pure db a.id p nowT H
    unfold gaaLoop gaaCond
    dsimp only []
    rw [happ]
    dsimp only []
    obtain ⟨ih1, ih2, ih3⟩ :=
      ih (accountProviderAvailable db a.id p nowT).1 H1
    rw [show gaaLoop (accountProviderAvailable db a.id p nowT).1 rest (some p) nowT =
      ((gaaLoop (accountProviderAvailable db a.id p nowT).1 rest (some p) nowT).1,
       (gaaLoop (accountProviderAvailable db a.id p nowT).1 rest (some p) nowT).2)
      from rfl]
    rw [ih1]
    dsimp only []
    have hfilter : rest.filter
        (fun b => availPure (accountProviderAvailable db a.id p nowT).1 b.id p nowT) =
        rest.filter (fun b => availPure db b.id p nowT) :=
      List.filter_congr (fun b _ => hstab b.id p)
    refine ⟨?_, ih2, ?_⟩
    · rw [hfilter, List.filter_cons]
    · intro aid1 p1
      rw [ih3 aid1 p1, hstab aid1 p1]

/-- Stable-insertion never produces the empty list. -/
theorem insertByVeces_ne_nil (x : Account) :
    ∀ l : List Account, insertByVeces x l ≠ [] := by
  intro l
  cases l with
  | nil => intro h; cases h
  | cons y ys =>
    unfold insertByVeces
    by_cases hc : x.veces_usada ≤ y.veces_usada
    · rw [if_pos hc]; intro h; cases h
    · rw [if_neg hc]; intro h; cases h

/-- The first entry with minimal `veces_usada`, in stored order: the
tie-break actually implemented by the stable `list.sort` call. -/
def firstMinByVeces : List Account → Option Account
  | [] => none
  | x :: xs =>
    match firstMinByVeces xs with
    | none => some x
    | some m => if x.veces_usada ≤ m.veces_usada then some x else some m

theorem head_sortByVeces : ∀ l : List Account,
    (sortByVeces l).head? = firstMinByVeces l := by
  intro l
  induction l with
  | nil => rfl
  | cons x xs ih =>
    unfold sortByVeces firstMinByVeces
    rw [← ih]
    cases hs : sortByVeces xs with
    | nil =>
      unfold insertByVeces
      rfl
    | cons y ys =>
      unfold insertByVeces
      by_cases hc : x.veces_usada ≤ y.veces_usada
      · rw [if_pos hc]
        simp only [List.head?, if_pos hc]
      · rw [if_neg hc]
        simp only [List.head?, if_neg hc]

theorem firstMinByVeces_spec : ∀ (l : List Account) (a : Account),
    firstMinByVeces l = some a →
    a ∈ l ∧ ∀ b ∈ l, a.veces_usada ≤ b.veces_usada := by
  intro l
  induction l with
  | nil => intro a h; cases h
  | cons x xs ih =>
    intro a h
    unfold firstMinByVeces at h
    cases hm : firstMinByVeces xs with
    | none =>
      rw [hm] at h
      dsimp only [] at h
      injection h with h1
      subst h1
      refine ⟨List.mem_cons_self _ _, ?_⟩
      intro b hb
      rcases List.mem_cons.mp hb with rfl | hb
      · exact Nat.le_refl _
      · exfalso
        cases xs with
        | nil => cases hb
        | cons z zs =>
          unfold firstMinByVeces at hm
          cases h2 : firstMinByVeces zs with
          | none => rw [h2] at hm; dsimp only [] at hm; cases hm
          | some m =>
            rw [h2] at hm
            dsimp only [] at hm
            by_cases hc : z.veces_usada ≤ m.veces_usada
            · rw [if_pos hc] at hm; cases hm
            · rw [if_neg hc] at hm; cases hm
    | some m =>
      rw [hm] at h
      dsimp only [] at h
      obtain ⟨hmem, hmin⟩ := ih m hm
      by_cases hc : x.veces_usada ≤ m.veces_usada
      · rw [if_pos hc] at h
        injection h with h1
        subst h1
        refine ⟨List.mem_cons_self _ _, ?_⟩
        intro b hb
        rcases List.mem_cons.mp hb with rfl | hb
        · exact Nat.le_refl _
        · exact Nat.le_trans hc (hmin b hb)
      · rw [if_neg hc] at h
        injection h with h1
        subst h1
        refine ⟨List.mem_cons_of_mem _ hmem, ?_⟩
        intro b hb
        rcases List.mem_cons.mp hb with rfl | hb
        · exact Nat.le_of_lt (Nat.lt_of_not_le hc)
        · exact hmin b hb

theorem firstMinByVeces_eq_none : ∀ l : List Account,
    firstMinByVeces l = none ↔ l = [] := by
  intro l
  cases l with
  | nil => exact ⟨fun _ => rfl, fun _ => rfl⟩
  | cons x xs =>
    constructor
    · intro h
      exfalso
      unfold firstMinByVeces at h
      cases h2 : firstMinByVeces xs with
      | none => rw [h2] at h; dsimp only [] at h; cases h
      | some m =>
        rw [h2] at h
        dsimp only [] at h
        by_cases hc : x.veces_usada ≤ m.veces_usada
        · rw [if_pos hc] at h; cases h
        · rw [if_neg hc] at h; cases h
    · intro h; cases h

/-- The selection rule `get_best_account` actually implements: among the
accounts whose anthropic quota is (purely) available, the first-in-stored-
order one with minimal `veces_usada`; if none, the same over gemini; else
none. -/
def selectBestSpec (db : DB) (nowT : Int) : Option (Account × Provider) :=
  match firstMinByVeces (db.accounts.filter fun a =>
      availPure db a.id .anthropic nowT) with
  | some a => some (a, .anthropic)
  | none =>
    match firstMinByVeces (db.accounts.filter fun a =>
        availPure db a.id .gemini nowT) with
    | some a => some (a, .gemini)
    | none => none

/-- The gemini fallback of `get_best_account`, computed purely. -/
theorem bestGemini_pure (db : DB) (nowT : Int) (H : AwareResets db) :
    (bestGemini db nowT).2 = .ok (match firstMinByVeces
      (db.accounts.filter fun a => availPure db a.id .gemini nowT) with
      | some a => some (a, Provider.gemini)
      | none => none) := by
  unfold bestGemini
  obtain ⟨h1, H1, hstab⟩ := gaaLoop_pure .gemini nowT db.accounts db H
  rw [show get_available_accounts db (some .gemini) nowT =
    ((get_available_accounts db (some .gemini) nowT).1,
     (gaaLoop db db.accounts (some .gemini) nowT).2) from rfl]
  rw [h1]
  dsimp only []
  rw [head_sortByVeces]
  cases hfm : firstMinByVeces (db.accounts.filter fun a =>
      availPure db a.id .gemini nowT) with
  | some a => rfl
  | none => rfl

/-- Under `AwareResets`, `get_best_account` with the anthropic preference
computes exactly `selectBestSpec`. -/
theorem get_best_account_pure (db : DB) (nowT : Int) (H : AwareResets db) :
    (get_best_account db true nowT).2 = .ok (selectBestSpec db nowT) := by
  unfold get_best_account selectBestSpec
  obtain ⟨h1, H1, hstab⟩ := gaaLoop_pure .anthropic nowT db.accounts db H
  have hskel := get_available_accounts_skeleton db (some .anthropic) nowT
  rw [show get_available_accounts db (some .anthropic) nowT =
    ((get_available_accounts db (some .anthropic) nowT).1,
     (gaaLoop db db.accounts (some .anthropic) nowT).2) from rfl]
  rw [h1]
  dsimp only []
  rw [head_sortByVeces]
  cases hfm : firstMinByVeces (db.accounts.filter fun a =>
      availPure db a.id .anthropic nowT) with
  | some a => rfl
  | none =>
    have hg := bestGemini_pure (get_available_accounts db (some .anthropic) nowT).1
      nowT H1
    have hlist : (get_available_accounts db (some .anthropic) nowT).1.accounts.filter
        (fun a => availPure (get_available_accounts db (some .anthropic) nowT).1
          a.id .gemini nowT) =
        db.accounts.filter (fun a => availPure db a.id .gemini nowT) := by
      rw [hskel.1]
      exact List.filter_congr (fun b _ => hstab b.id .gemini)
    rw [hlist] at hg
    exact hg

/-- What the amended C3 asserts: the selection equals the pure
specification — lowest `veces_usada` among available accounts for the
preferred provider, ties broken by position in the stored account list,
with the gemini fallback — and that specification picks a member of
minimal usage, falling through only when nothing is available.
Determinism is immediate: the result is a function of the stored state. -/
def SelectBestClaim (db : DB) (nowT : Int) : Prop :=
  (get_best_account db true nowT).2 = .ok (selectBestSpec db nowT) ∧
  (∀ a, selectBestSpec db nowT = some (a, .anthropic) →
    a ∈ db.accounts ∧ availPure db a.id .anthropic nowT = true ∧
    ∀ b ∈ db.accounts, availPure db b.id .anthropic nowT = true →
      a.veces_usada ≤ b.veces_usada) ∧
  (∀ a, selectBestSpec db nowT = some (a, .gemini) →
    (∀ b ∈ db.accounts, availPure db b.id .anthropic nowT = false) ∧
    a ∈ db.accounts ∧ availPure db a.id .gemini nowT = true ∧
    ∀ b ∈ db.accounts, availPure db b.id .gemini nowT = true →
      a.veces_usada ≤ b.veces_usada) ∧
  (selectBestSpec db nowT = none →
    ∀ b ∈ db.accounts, availPure db b.id .anthropic nowT = false ∧
      availPure db b.id .gemini nowT = false)

/-- A filtered-out predicate value is false. -/
theorem availPure_false_of_filter_nil {db : DB} {p : Provider} {nowT : Int}
    (h : db.accounts.filter (fun a => availPure db a.id p nowT) = [])
    {b : Account} (hb : b ∈ db.accounts) : availPure db b.id p nowT = false := by
  have := List.filter_eq_nil_iff.mp h b hb
  cases hv : availPure db b.id p nowT with
  | false => rfl
  | true => exact absurd hv this

/-- C3 (amended).  `get_best_account` deterministically returns, among the
accounts with the preferred (anthropic) provider available, the one with
the lowest `veces_usada`, ties broken by position in the stored account
list (Python's stable sort over the unordered query) — not by
`created_at` or id; if none is available it applies the same rule to
gemini; if nothing is available it returns none. -/
theorem c3_select_best (db : DB) (nowT : Int) (H : AwareResets db) :
    SelectBestClaim db nowT := by
  refine ⟨get_best_account_pure db nowT H, ?_, ?_, ?_⟩
  · intro a hsel
    unfold selectBestSpec at hsel
    cases hfm : firstMinByVeces (db.accounts.filter fun a =>
        availPure db a.id .anthropic nowT) with
    | some b =>
      rw [hfm] at hsel
      dsimp only [] at hsel
      injection hsel with h1
      injection h1 with h2 h3
      subst h2
      obtain ⟨hmem, hmin⟩ := firstMinByVeces_spec _ _ hfm
      rw [List.mem_filter] at hmem
      refine ⟨hmem.1, hmem.2, ?_⟩
      intro b hb hav
      exact hmin b (List.mem_filter.mpr ⟨hb, hav⟩)
    | none =>
      rw [hfm] at hsel
      dsimp only [] at hsel
      exfalso
      cases hfg : firstMinByVeces (db.accounts.filter fun a =>
          availPure db a.id .gemini nowT) with
      | some g =>
        rw [hfg] at hsel
        dsimp only [] at hsel
        injection hsel with h1
        injection h1 with h2 h3
        cases h3
      | none =>
        rw [hfg] at hsel
        dsimp only [] at hsel
        cases hsel
  · intro a hsel
    unfold selectBestSpec at hsel
    cases hfm : firstMinByVeces (db.accounts.filter fun a =>
        availPure db a.id .anthropic nowT) with
    | some b =>
      rw [hfm] at hsel
      dsimp only [] at hsel
      exfalso
      injection hsel with h1
      injection h1 with h2 h3
      cases h3
    | none =>
      rw [hfm] at hsel
      dsimp only [] at hsel
      have hempty := (firstMinByVeces_eq_none _).mp hfm
      cases hfg : firstMinByVeces (db.accounts.filter fun a =>
          availPure db a.id .gemini nowT) with
      | some g =>
        rw [hfg] at hsel
        dsimp only [] at hsel
        injection hsel with h1
        injection h1 with h2 h3
        subst h2
        obtain ⟨hmem, hmin⟩ := firstMinByVeces_spec _ _ hfg
        rw [List.mem_filter] at hmem
        refine ⟨fun b hb => availPure_false_of_filter_nil hempty hb,
          hmem.1, hmem.2, ?_⟩
        intro b hb hav
        exact hmin b (List.mem_filter.mpr ⟨hb, hav⟩)
      | none =>
        rw [hfg] at hsel
        dsimp only [] at hsel
        cases hsel
  · intro hsel
    unfold selectBestSpec at hsel
    cases hfm : firstMinByVeces (db.accounts.filter fun a =>
        availPure db a.id .anthropic nowT) with
    | some b =>
      rw [hfm] at hsel
      dsimp only [] at hsel
      cases hsel
    | none =>
      rw [hfm] at hsel
      dsimp only [] at hsel
      have hemptyA := (firstMinByVeces_eq_none _).mp hfm
      cases hfg : firstMinByVeces (db.accounts.filter fun a =>
          availPure db a.id .gemini nowT) with
      | some g =>
        rw [hfg] at hsel
        dsimp only [] at hsel
        cases hsel
      | none =>
        have hemptyG := (firstMinByVeces_eq_none _).mp hfg
        intro b hb
        exact ⟨availPure_false_of_filter_nil hemptyA hb,
          availPure_false_of_filter_nil hemptyG hb⟩

/-- Tied on `veces_usada` with another account, later in the stored list,
later-created and with the larger id. -/
def acctX : Account := ⟨2, false, 3, 0, ⟨100, true⟩⟩

/-- The tied account the claim's `created_at`/id tie-break would pick. -/
def acctY : Account := ⟨1, false, 3, 0, ⟨0, true⟩⟩

/-- Both accounts fully available (no quota rows), stored `[X, Y]`. -/
def dbC3 : DB := ⟨[acctX, acctY], [], [], 0⟩

/-- C3 counterexample to the claim as stated: both accounts have anthropic
available and equal `veces_usada`, `acctY` was created strictly earlier
and has the smaller id, yet `get_best_account` returns `acctX` — the tie
is broken by position in the stored list, not by `created_at` or id. -/
theorem c3_counterexample :
    (get_best_account dbC3 true 0).2 = .ok (some (acctX, .anthropic)) ∧
    acctY ∈ dbC3.accounts ∧
    accountProviderAvailable dbC3 acctY.id .anthropic 0 = (dbC3, .ok true) ∧
    acctY.veces_usada = acctX.veces_usada ∧
    acctY.created_at.t < acctX.created_at.t ∧ acctY.id < acctX.id := by
  refine ⟨rfl, ?_, rfl, rfl, by decide, by decide⟩
  show acctY ∈ [acctX, acctY]
  exact List.mem_cons_of_mem _ (List.mem_singleton.mpr rfl)

theorem c3_select_best_witness : AwareResets dbC3 ∧ SelectBestClaim dbC3 0 :=
  ⟨by decide, c3_select_best dbC3 0 (by decide)⟩

/-- Python truthiness of the stored `duracion`: `None` and the zero
timedelta are falsy and are skipped by the summary loop. -/
def duracionTruthy (s : Session) : Bool :=
  match s.duracion with
  | some d => !(d == 0)
  | none => false

/-- A closed session that the summary loop actually tallies for provider
`p`: `fin` set, truthy duration, matching provider. -/
def countedFor (p : Provider) (s : Session) : Bool :=
  s.fin.isSome && duracionTruthy s && s.provider == p

/-- The hours a tallied session contributes. -/
def sessionHours (s : Session) : Rat := ((s.duracion.getD 0 : Int) : Rat) / 3600

/-- The per-provider session predicate of the inner tally loop (its input
is already filtered to finished sessions). -/
def tallyPred (p : Provider) (s : Session) : Bool :=
  duracionTruthy s && s.provider == p

theorem tally_fold_sa : ∀ (l : List Session) (acc : SumAcc),
    (l.foldl sessionTallyStep acc).sesiones_anthropic =
      acc.sesiones_anthropic + l.countP (tallyPred .anthropic) := by
  intro l
  induction l with
  | nil => intro acc; rfl
  | cons x xs ih =>
    intro acc
    rw [List.foldl_cons, ih, List.countP_cons]
    unfold sessionTallyStep tallyPred duracionTruthy
    cases hd : x.duracion with
    | none => simp
    | some d =>
      by_cases hz : (d == 0) = true
      · simp [hz]
      · by_cases hp : (x.provider == Provider.anthropic) = true
        · simp [hz, hp]
          omega
        · simp [hz, hp]

theorem tally_fold_sg : ∀ (l : List Session) (acc : SumAcc),
    (l.foldl sessionTallyStep acc).sesiones_gemini =
      acc.sesiones_gemini + l.countP (tallyPred .gemini) := by
  intro l
  induction l with
  | nil => intro acc; rfl
  | cons x xs ih =>
    intro acc
    rw [List.foldl_cons, ih, List.countP_cons]
    unfold sessionTallyStep tallyPred duracionTruthy
    cases hd : x.duracion with
    | none => simp
    | some d =>
      by_cases hz : (d == 0) = true
      · simp [hz]
      · by_cases hp : (x.provider == Provider.anthropic) = true
        · have hg : (x.provider == Provider.gemini) = false := by
            have := beq_iff_eq.mp hp
            rw [this]
            decide
          simp [hz, hp, hg]
        · have hg : (x.provider == Provider.gemini) = true := by
            cases hx : x.provider with
            | anthropic => rw [hx] at hp; simp at hp
            | gemini => rfl
          simp [hz, hp, hg]
          omega

theorem tally_fold_ha : ∀ (l : List Session) (acc : SumAcc),
    (l.foldl sessionTallyStep acc).horas_anthropic =
      acc.horas_anthropic + (l.map (fun s =>
        if tallyPred .anthropic s then sessionHours s else 0)).sum := by
  intro l
  induction l with
  | nil => intro acc; simp
  | cons x xs ih =>
    intro acc
    rw [List.foldl_cons, ih, List.map_cons, List.sum_cons]
    unfold sessionTallyStep tallyPred duracionTruthy sessionHours
    cases hd : x.duracion with
    | none => simp
    | some d =>
      by_cases hz : (d == 0) = true
      · simp [hz]
      · by_cases hp : (x.provider == Provider.anthropic) = true
        · simp [hz, hp, hd]
          ring
        · simp [hz, hp, hd]

theorem tally_fold_hg : ∀ (l : List Session) (acc : SumAcc),
    (l.foldl sessionTallyStep acc).horas_gemini =
      acc.horas_gemini + (l.map (fun s =>
        if tallyPred .gemini s then sessionHours s else 0)).sum := by
  intro l
  induction l with
  | nil => intro acc; simp
  | cons x xs ih =>
    intro acc
    rw [List.foldl_cons, ih, List.map_cons, List.sum_cons]
    unfold sessionTallyStep tallyPred duracionTruthy sessionHours
    cases hd : x.duracion with
    | none => simp
    | some d =>
      by_cases hz : (d == 0) = true
      · simp [hz]
      · by_cases hp : (x.provider == Provider.anthropic) = true
        · have hg : (x.provider == Provider.gemini) = false := by
            have := beq_iff_eq.mp hp
            rw [this]
            decide
          simp [hz, hp, hg, hd]
        · have hg : (x.provider == Provider.gemini) = true := by
            cases hx : x.provider with
            | anthropic => rw [hx] at hp; simp at hp
            | gemini => rfl
          simp [hz, hp, hg, hd]
          ring

/-- Classification reads commit only quota-internal changes. -/
theorem get_classification_skeleton (db : DB) (aid : Nat) (nowT : Int) :
    SameSkeleton db (get_classification db aid nowT).1 := by
  unfold get_classification
  have h1 := apa_skeleton db aid .anthropic nowT
  cases hq : accountProviderAvailable db aid .anthropic nowT with
  | mk db1 r =>
    rw [hq] at h1
    cases r with
    | error e => exact h1
    | ok aAvail =>
      dsimp only []
      have h2 := apa_skeleton db1 aid .gemini nowT
      cases hq2 : accountProviderAvailable db1 aid .gemini nowT with
      | mk db2 r2 =>
        rw [hq2] at h2
        cases r2 with
        | error e => exact sameSkeleton_trans h1 h2
        | ok gAvail => exact sameSkeleton_trans h1 h2

/-- Pull an inner filter into the pointwise condition of an if-weighted
sum. -/
theorem sum_map_if_filter {α : Type} (w : α → Rat) (p q : α → Bool) :
    ∀ l : List α,
      ((l.filter q).map (fun s => if p s = true then w s else 0)).sum =
      (l.map (fun s => if (p s && q s) = true then w s else 0)).sum := by
  intro l
  induction l with
  | nil => rfl
  | cons x xs ih =>
    rw [List.filter_cons]
    by_cases hq : q x = true
    · rw [if_pos hq, List.map_cons, List.sum_cons, ih, List.map_cons, List.sum_cons]
      rw [hq, Bool.and_true]
    · rw [if_neg hq, ih, List.map_cons, List.sum_cons]
      have hqf : q x = false := by
        cases h2 : q x with
        | false => rfl
        | true => exact absurd h2 hq
      rw [hqf, Bool.and_false]
      simp

/-- The inner per-account tally count, rephrased over the whole session
table. -/
theorem tallyCount_global (db : DB) (p : Provider) (aid : Nat) :
    (finishedSessionsOf db aid).countP (tallyPred p) =
      db.sessions.countP (fun s => (s.account_id == aid) && countedFor p s) := by
  unfold finishedSessionsOf
  rw [List.countP_filter, List.countP_filter]
  apply countP_congr_mem
  intro x _
  unfold tallyPred countedFor
  cases hf : x.fin.isSome <;> cases hdt : duracionTruthy x <;>
    cases hp : x.provider == p <;> cases ho : x.account_id == aid <;>
    simp [hf, hdt, hp, ho]

/-- The inner per-account hours tally, rephrased over the whole session
table. -/
theorem tallyHours_global (db : DB) (p : Provider) (aid : Nat) :
    ((finishedSessionsOf db aid).map (fun s =>
        if tallyPred p s = true then sessionHours s else 0)).sum =
      (db.sessions.map (fun s =>
        if ((s.account_id == aid) && countedFor p s) = true then sessionHours s
        else 0)).sum := by
  unfold finishedSessionsOf
  rw [sum_map_if_filter, sum_map_if_filter]
  apply congrArg
  apply List.map_congr_left
  intro x _
  unfold tallyPred countedFor
  cases hf : x.fin.isSome <;> cases hdt : duracionTruthy x <;>
    cases hp : x.provider == p <;> cases ho : x.account_id == aid <;>
    simp [hf, hdt, hp, ho]

theorem nat_beq_comm (x y : Nat) : (x == y) = (y == x) := by
  by_cases h : x = y
  · rw [h]
  · have h1 : (x == y) = false := by
      cases h2 : x == y with
      | false => rfl
      | true => exact absurd (beq_iff_eq.mp h2) h
    have h2 : (y == x) = false := by
      cases h3 : y == x with
      | false => rfl
      | true => exact absurd (beq_iff_eq.mp h3).symm h
    rw [h1, h2]

/-- Summing per-account session counts over accounts with distinct ids
equals one global count over sessions with an existing owner. -/
theorem countP_partition (q : Session → Bool) :
    ∀ (accounts : List Account) (sessions : List Session),
      (accounts.map Account.id).Nodup →
      (accounts.map (fun a =>
        sessions.countP (fun s => (s.account_id == a.id) && q s))).sum =
      sessions.countP (fun s =>
        (accounts.any fun a => a.id == s.account_id) && q s) := by
  intro accounts
  induction accounts with
  | nil =>
    intro sessions hnd
    rw [List.map_nil, List.sum_nil]
    symm
    rw [List.countP_eq_zero]
    intro s _ hp
    rw [Bool.and_eq_true] at hp
    have := hp.1
    rw [List.any_nil] at this
    cases this
  | cons a rest ih =>
    intro sessions hnd
    rw [List.map_cons, List.sum_cons]
    rw [List.map_cons, List.nodup_cons] at hnd
    rw [ih sessions hnd.2]
    have hsplit : sessions.countP (fun s =>
        ((a :: rest).any fun x => x.id == s.account_id) && q s) =
        sessions.countP (fun s =>
          ((s.account_id == a.id) && q s) ||
          ((rest.any fun x => x.id == s.account_id) && q s)) := by
      apply countP_congr_mem
      intro s _
      rw [List.any_cons]
      rw [nat_beq_comm a.id s.account_id]
      cases h1 : s.account_id == a.id <;>
        cases h2 : rest.any fun x => x.id == s.account_id <;>
        cases h3 : q s <;> rfl
    rw [hsplit]
    rw [countP_or_disjoint]
    intro s _ hboth
    obtain ⟨hp1, hp2⟩ := hboth
    rw [Bool.and_eq_true] at hp1 hp2
    obtain ⟨x, hx, hxid⟩ := List.any_eq_true.mp hp2.1
    apply hnd.1
    rw [List.mem_map]
    refine ⟨x, hx, ?_⟩
    rw [beq_iff_eq.mp hxid, beq_iff_eq.mp hp1.1]

/-- Pointwise sums distribute over a mapped list sum. -/
theorem sum_map_add (f g : Session → Rat) :
    ∀ l : List Session,
      (l.map fun s => f s + g s).sum = (l.map f).sum + (l.map g).sum := by
  intro l
  induction l with
  | nil => simp
  | cons x xs ih =>
    rw [List.map_cons, List.sum_cons, ih, List.map_cons, List.sum_cons,
        List.map_cons, List.sum_cons]
    ring

/-- Summing per-account if-weighted hour sums over accounts with distinct
ids equals one global if-weighted sum over sessions with an existing
owner. -/
theorem sum_partition_hours (w : Session → Rat) (q : Session → Bool) :
    ∀ (accounts : List Account) (sessions : List Session),
      (accounts.map Account.id).Nodup →
      (accounts.map (fun a => (sessions.map (fun s =>
        if ((s.account_id == a.id) && q s) = true then w s else 0)).sum)).sum =
      (sessions.map (fun s =>
        if ((accounts.any fun x => x.id == s.account_id) && q s) = true then w s
        else 0)).sum := by
  intro accounts
  induction accounts with
  | nil =>
    intro sessions hnd
    rw [List.map_nil, List.sum_nil]
    symm
    have hzmap : (sessions.map (fun s =>
        if (([] : List Account).any (fun x => x.id == s.account_id) && q s) = true
        then w s else 0)) = sessions.map (fun _ => (0 : Rat)) := by
      apply List.map_congr_left
      intro s _
      rw [List.any_nil, Bool.false_and]
      rfl
    rw [hzmap]
    have hzsum : ∀ l : List Session, (l.map fun _ => (0 : Rat)).sum = 0 := by
      intro l
      induction l with
      | nil => rfl
      | cons x xs ih2 => rw [List.map_cons, List.sum_cons, ih2]; ring
    rw [hzsum]
  | cons a rest ih =>
    intro sessions hnd
    rw [List.map_cons, List.sum_cons]
    rw [List.map_cons, List.nodup_cons] at hnd
    rw [ih sessions hnd.2]
    have hdisj : ∀ s ∈ sessions,
        ¬(((s.account_id == a.id) && q s) = true ∧
          ((rest.any fun x => x.id == s.account_id) && q s) = true) := by
      intro s _ hboth
      obtain ⟨hp1, hp2⟩ := hboth
      rw [Bool.and_eq_true] at hp1 hp2
      obtain ⟨x, hx, hxid⟩ := List.any_eq_true.mp hp2.1
      apply hnd.1
      rw [List.mem_map]
      refine ⟨x, hx, ?_⟩
      rw [beq_iff_eq.mp hxid, beq_iff_eq.mp hp1.1]
    have hsplit : (sessions.map (fun s =>
        if (((a :: rest).any fun x => x.id == s.account_id) && q s) = true
        then w s else 0)) = sessions.map (fun s =>
          (if ((s.account_id == a.id) && q s) = true then w s else 0) +
          (if ((rest.any fun x => x.id == s.account_id) && q s) = true then w s
           else 0)) := by
      apply List.map_congr_left
      intro s hs
      rw [List.any_cons]
      rw [nat_beq_comm a.id s.account_id]
      cases h3 : q s with
      | false => simp
      | true =>
        cases h1 : s.account_id == a.id with
        | true =>
          cases h2 : (rest.any fun x => x.id == s.account_id) with
          | true =>
            exact absurd ⟨by rw [h1, h3]; rfl, by rw [h2, h3]; rfl⟩ (hdisj s hs)
          | false => simp [h1, h2]
        | false =>
          cases h2 : (rest.any fun x => x.id == s.account_id) <;> simp [h1, h2]
    rw [hsplit, sum_map_add]

/-- The classification counters do not touch the session tallies. -/
theorem classTally_preserves (acc : SumAcc) (cls : Classification) :
    (classTallyStep acc cls).sesiones_anthropic = acc.sesiones_anthropic ∧
    (classTallyStep acc cls).sesiones_gemini = acc.sesiones_gemini ∧
    (classTallyStep acc cls).horas_anthropic = acc.horas_anthropic ∧
    (classTallyStep acc cls).horas_gemini = acc.horas_gemini := by
  cases cls <;> exact ⟨rfl, rfl, rfl, rfl⟩

/-- Running the summary loop accumulates, per provider, exactly the
tallied session counts and hours of each listed account, while leaving
the session and account tables untouched. -/
theorem summaryLoop_tallies (nowT : Int) :
    ∀ (accts : List Account) (db : DB) (acc : SumAcc) (db1 : DB) (acc1 : SumAcc),
      summaryLoop nowT db acc accts = (db1, .ok acc1) →
      db1.sessions = db.sessions ∧ db1.accounts = db.accounts ∧
      acc1.sesiones_anthropic = acc.sesiones_anthropic +
        (accts.map (fun a => db.sessions.countP
          (fun s => (s.account_id == a.id) && countedFor .anthropic s))).sum ∧
      acc1.sesiones_gemini = acc.sesiones_gemini +
        (accts.map (fun a => db.sessions.countP
          (fun s => (s.account_id == a.id) && countedFor .gemini s))).sum ∧
      acc1.horas_anthropic = acc.horas_anthropic +
        (accts.map (fun a => (db.sessions.map (fun s =>
          if ((s.account_id == a.id) && countedFor .anthropic s) = true
          then sessionHours s else 0)).sum)).sum ∧
      acc1.horas_gemini = acc.horas_gemini +
        (accts.map (fun a => (db.sessions.map (fun s =>
          if ((s.account_id == a.id) && countedFor .gemini s) = true
          then sessionHours s else 0)).sum)).sum := by
  intro accts
  induction accts with
  | nil =>
    intro db acc db1 acc1 h
    unfold summaryLoop at h
    injection h with h1 h2
    injection h2 with h3
    subst h1
    subst h3
    refine ⟨rfl, rfl, ?_, ?_, ?_, ?_⟩ <;> simp
  | cons a rest ih =>
    intro db acc db1 acc1 h
    unfold summaryLoop at h
    have hskel1 := get_classification_skeleton db a.id nowT
    cases hc : get_classification db a.id nowT with
    | mk dbc rc =>
      rw [hc] at h hskel1
      cases rc with
      | error e => injection h with h1 h2; cases h2
      | ok cls =>
        dsimp only [] at h
        have hskel2 := apa_skeleton dbc a.id .anthropic nowT
        cases h2 : accountProviderAvailable dbc a.id .anthropic nowT with
        | mk db2 r2 =>
          rw [h2] at h hskel2
          cases r2 with
          | error e => injection h with h1 h2x; cases h2x
          | ok aA =>
            dsimp only [] at h
            have hskel3 := apa_skeleton db2 a.id .gemini nowT
            cases h3 : accountProviderAvailable db2 a.id .gemini nowT with
            | mk db3 r3 =>
              rw [h3] at h hskel3
              cases r3 with
              | error e => injection h with h1 h3x; cases h3x
              | ok gA =>
                dsimp only [] at h
                have hsess : db3.sessions = db.sessions := by
                  rw [hskel3.2.1, hskel2.2.1, hskel1.2.1]
                have hacc : db3.accounts = db.accounts := by
                  rw [hskel3.1, hskel2.1, hskel1.1]
                obtain ⟨ihs, iha, ihsa, ihsg, ihha, ihhg⟩ :=
                  ih db3 _ db1 acc1 h
                have hfin : finishedSessionsOf db3 a.id =
                    finishedSessionsOf db a.id := by
                  unfold finishedSessionsOf
                  rw [hsess]
                have hcp := classTally_preserves acc cls
                refine ⟨ihs.trans hsess, iha.trans hacc, ?_, ?_, ?_, ?_⟩
                · rw [ihsa, tally_fold_sa, hfin, tallyCount_global,
                      List.map_cons, List.sum_cons]
                  have hrest : rest.map (fun x => db3.sessions.countP
                      (fun s => (s.account_id == x.id) && countedFor .anthropic s)) =
                      rest.map (fun x => db.sessions.countP
                      (fun s => (s.account_id == x.id) && countedFor .anthropic s)) := by
                    rw [hsess]
                  rw [hrest]
                  have hstep : (({ classTallyStep acc cls with
                      limite_anthropic := (classTallyStep acc cls).limite_anthropic +
                        (if aA then 0 else 1),
                      limite_gemini := (classTallyStep acc cls).limite_gemini +
                        (if gA then 0 else 1) } : SumAcc)).sesiones_anthropic =
                      acc.sesiones_anthropic := hcp.1
                  rw [hstep]
                  omega
                · rw [ihsg, tally_fold_sg, hfin, tallyCount_global,
                      List.map_cons, List.sum_cons]
                  have hrest : rest.map (fun x => db3.sessions.countP
                      (fun s => (s.account_id == x.id) && countedFor .gemini s)) =
                      rest.map (fun x => db.sessions.countP
                      (fun s => (s.account_id == x.id) && countedFor .gemini s)) := by
                    rw [hsess]
                  rw [hrest]
                  have hstep : (({ classTallyStep acc cls with
                      limite_anthropic := (classTallyStep acc cls).limite_anthropic +
                        (if aA then 0 else 1),
                      limite_gemini := (classTallyStep acc cls).limite_gemini +
                        (if gA then 0 else 1) } : SumAcc)).sesiones_gemini =
                      acc.sesiones_gemini := hcp.2.1
                  rw [hstep]
                  omega
                · rw [ihha, tally_fold_ha, hfin, tallyHours_global,
                      List.map_cons, List.sum_cons]
                  have hrest : rest.map (fun x => (db3.sessions.map (fun s =>
                      if ((s.account_id == x.id) && countedFor .anthropic s) = true
                      then sessionHours s else 0)).sum) =
                      rest.map (fun x => (db.sessions.map (fun s =>
                      if ((s.account_id == x.id) && countedFor .anthropic s) = true
                      then sessionHours s else 0)).sum) := by
                    rw [hsess]
                  rw [hrest]
                  have hstep : (({ classTallyStep acc cls with
                      limite_anthropic := (classTallyStep acc cls).limite_anthropic +
                        (if aA then 0 else 1),
                      limite_gemini := (classTallyStep acc cls).limite_gemini +
                        (if gA then 0 else 1) } : SumAcc)).horas_anthropic =
                      acc.horas_anthropic := hcp.2.2.1
                  rw [hstep]
                  ring
                · rw [ihhg, tally_fold_hg, hfin, tallyHours_global,
                      List.map_cons, List.sum_cons]
                  have hrest : rest.map (fun x => (db3.sessions.map (fun s =>
                      if ((s.account_id == x.id) && countedFor .gemini s) = true
                      then sessionHours s else 0)).sum) =
                      rest.map (fun x => (db.sessions.map (fun s =>
                      if ((s.account_id == x.id) && countedFor .gemini s) = true
                      then sessionHours s else 0)).sum) := by
                    rw [hsess]
                  rw [hrest]
                  have hstep : (({ classTallyStep acc cls with
                      limite_anthropic := (classTallyStep acc cls).limite_anthropic +
                        (if aA then 0 else 1),
                      limite_gemini := (classTallyStep acc cls).limite_gemini +
                        (if gA then 0 else 1) } : SumAcc)).horas_gemini =
                      acc.horas_gemini := hcp.2.2.2
                  rw [hstep]
                  ring

/-- What the amended C9 asserts of `get_summary`: per-provider session
counts and hours are computed over the closed sessions of existing
accounts whose recorded duration is truthy (present and nonzero), and the
most-used provider is the strict majority of those counts, with 'Empate'
on a nonzero tie and none when both counts are zero. -/
def SummaryClaim (db : DB) (nowT : Int) : Prop :=
  ∀ db1 s, get_summary db nowT = (db1, .ok s) →
    s.sesiones_anthropic = db.sessions.countP (fun se =>
      (db.accounts.any fun a => a.id == se.account_id) &&
        countedFor .anthropic se) ∧
    s.sesiones_gemini = db.sessions.countP (fun se =>
      (db.accounts.any fun a => a.id == se.account_id) &&
        countedFor .gemini se) ∧
    s.horas_anthropic = (db.sessions.map (fun se =>
      if ((db.accounts.any fun a => a.id == se.account_id) &&
          countedFor .anthropic se) = true then sessionHours se else 0)).sum ∧
    s.horas_gemini = (db.sessions.map (fun se =>
      if ((db.accounts.any fun a => a.id == se.account_id) &&
          countedFor .gemini se) = true then sessionHours se else 0)).sum ∧
    s.horas_totales = s.horas_anthropic + s.horas_gemini ∧
    (s.modelo_mas_usado = .anthropicMost ↔
      s.sesiones_gemini < s.sesiones_anthropic) ∧
    (s.modelo_mas_usado = .geminiMost ↔
      s.sesiones_anthropic < s.sesiones_gemini) ∧
    (s.modelo_mas_usado = .empate ↔
      s.sesiones_anthropic = s.sesiones_gemini ∧ 0 < s.sesiones_anthropic) ∧
    (s.modelo_mas_usado = .ninguno ↔
      s.sesiones_anthropic = 0 ∧ s.sesiones_gemini = 0)

/-- C9 (amended).  `get_summary` reports per-provider hours and session
counts computed over the closed sessions (of still-existing accounts)
whose recorded duration is truthy — `None` and zero-length durations are
skipped by the `if session.duracion:` guard — and derives the most-used
provider by strict majority of those counts, reporting 'Empate' on an
equal nonzero count and none when both counts are zero. -/
theorem c9_summary (db : DB) (nowT : Int) (hInv : PoolInv db) :
    SummaryClaim db nowT := by
  intro db1 s h
  unfold get_summary at h
  cases hl : summaryLoop nowT db {} db.accounts with
  | mk dbl rl =>
    rw [hl] at h
    cases rl with
    | error e => injection h with h1 h2; cases h2
    | ok acc =>
      dsimp only [] at h
      injection h with h1 h2
      injection h2 with h3
      subst h3
      obtain ⟨-, -, hsa, hsg, hha, hhg⟩ :=
        summaryLoop_tallies nowT db.accounts db {} dbl acc hl
      have hnd : (db.accounts.map Account.id).Nodup := hInv.2.2.2.1
      have hsa2 : acc.sesiones_anthropic = db.sessions.countP (fun se =>
          (db.accounts.any fun a => a.id == se.account_id) &&
            countedFor .anthropic se) := by
        rw [hsa, ← countP_partition (countedFor .anthropic) db.accounts db.sessions hnd]
        show 0 + _ = _
        rw [Nat.zero_add]
      have hsg2 : acc.sesiones_gemini = db.sessions.countP (fun se =>
          (db.accounts.any fun a => a.id == se.account_id) &&
            countedFor .gemini se) := by
        rw [hsg, ← countP_partition (countedFor .gemini) db.accounts db.sessions hnd]
        show 0 + _ = _
        rw [Nat.zero_add]
      have hha2 : acc.horas_anthropic = (db.sessions.map (fun se =>
          if ((db.accounts.any fun a => a.id == se.account_id) &&
              countedFor .anthropic se) = true then sessionHours se else 0)).sum := by
        rw [hha, ← sum_partition_hours sessionHours (countedFor .anthropic)
          db.accounts db.sessions hnd]
        show (0 : Rat) + _ = _
        rw [zero_add]
      have hhg2 : acc.horas_gemini = (db.sessions.map (fun se =>
          if ((db.accounts.any fun a => a.id == se.account_id) &&
              countedFor .gemini se) = true then sessionHours se else 0)).sum := by
        rw [hhg, ← sum_partition_hours sessionHours (countedFor .gemini)
          db.accounts db.sessions hnd]
        show (0 : Rat) + _ = _
        rw [zero_add]
      refine ⟨hsa2, hsg2, hha2, hhg2, rfl, ?_, ?_, ?_, ?_⟩ <;>
        dsimp only [] <;>
        constructor <;> intro hx
      · by_cases hgt : acc.sesiones_gemini < acc.sesiones_anthropic
        · exact hgt
        · rw [if_neg hgt] at hx
          by_cases hlt : acc.sesiones_anthropic < acc.sesiones_gemini
          · rw [if_pos hlt] at hx; cases hx
          · rw [if_neg hlt] at hx
            by_cases hz : 0 < acc.sesiones_anthropic
            · rw [if_pos hz] at hx; cases hx
            · rw [if_neg hz] at hx; cases hx
      · rw [if_pos hx]
      · by_cases hgt : acc.sesiones_gemini < acc.sesiones_anthropic
        · rw [if_pos hgt] at hx; cases hx
        · rw [if_neg hgt] at hx
          by_cases hlt : acc.sesiones_anthropic < acc.sesiones_gemini
          · exact hlt
          · rw [if_neg hlt] at hx
            by_cases hz : 0 < acc.sesiones_anthropic
            · rw [if_pos hz] at hx; cases hx
            · rw [if_neg hz] at hx; cases hx
      · have hgt : ¬(acc.sesiones_gemini < acc.sesiones_anthropic) := by omega
        rw [if_neg hgt, if_pos hx]
      · by_cases hgt : acc.sesiones_gemini < acc.sesiones_anthropic
        · rw [if_pos hgt] at hx; cases hx
        · rw [if_neg hgt] at hx
          by_cases hlt : acc.sesiones_anthropic < acc.sesiones_gemini
          · rw [if_pos hlt] at hx; cases hx
          · rw [if_neg hlt] at hx
            by_cases hz : 0 < acc.sesiones_anthropic
            · exact ⟨by omega, hz⟩
            · rw [if_neg hz] at hx; cases hx
      · have hgt : ¬(acc.sesiones_gemini < acc.sesiones_anthropic) := by omega
        have hlt : ¬(acc.sesiones_anthropic < acc.sesiones_gemini) := by omega
        rw [if_neg hgt, if_neg hlt, if_pos hx.2]
      · by_cases hgt : acc.sesiones_gemini < acc.sesiones_anthropic
        · rw [if_pos hgt] at hx; cases hx
        · rw [if_neg hgt] at hx
          by_cases hlt : acc.sesiones_anthropic < acc.sesiones_gemini
          · rw [if_pos hlt] at hx; cases hx
          · rw [if_neg hlt] at hx
            by_cases hz : 0 < acc.sesiones_anthropic
            · rw [if_pos hz] at hx; cases hx
            · constructor <;> omega
      · have hgt : ¬(acc.sesiones_gemini < acc.sesiones_anthropic) := by omega
        have hlt : ¬(acc.sesiones_anthropic < acc.sesiones_gemini) := by omega
        have hz : ¬(0 < acc.sesiones_anthropic) := by omega
        rw [if_neg hgt, if_neg hlt, if_neg hz]

theorem c8_fail_open_classification_witness : ClassificationClaim dbW1 1 0 :=
  c8_fail_open_classification dbW1 1 0

/-- One account with a single closed anthropic session of nonzero
duration. -/
def dbW9 : DB :=
  ⟨[⟨1, false, 1, 4, ⟨0, true⟩⟩], [],
   [⟨0, 1, .anthropic, ⟨5, true⟩, some ⟨9, true⟩, some 4, some .manual⟩], 1⟩

theorem c9_summary_witness : PoolInv dbW9 ∧ SummaryClaim dbW9 10 :=
  ⟨by decide, c9_summary dbW9 10 (by decide)⟩

/-- One account with a single closed anthropic session of zero duration
(started and ended on the same clock reading). -/
def dbC9 : DB :=
  ⟨[⟨1, false, 1, 0, ⟨0, true⟩⟩], [],
   [⟨0, 1, .anthropic, ⟨3, true⟩, some ⟨3, true⟩, some 0, some .manual⟩], 1⟩

/-- C9 counterexample to the claim as stated: the pool has exactly one
closed anthropic SessionRecord, yet `get_summary` reports zero anthropic
sessions and no most-used provider, because the zero timedelta is falsy
and the session is skipped by the `if session.duracion:` guard. -/
theorem c9_counterexample :
    ((get_summary dbC9 10).2.toOption.map fun s =>
      (s.sesiones_anthropic, s.sesiones_gemini, s.modelo_mas_usado)) =
      some (0, 0, .ninguno) ∧
    dbC9.sessions.countP (fun s => s.fin.isSome && s.provider == .anthropic) = 1 := by
  exact ⟨rfl, rfl⟩
